import Mathlib

/-!
Verification of the Dhruva.ai discovery / gap-analysis pipeline.

The definitions below are a shallow embedding of the TypeScript sources:
* `src/unnamed/part_009` (discovery route): `mapFiberProfile`, `findGoldenStep`,
  `tenureInYears`, `impactDensity`, `deriveSuccessPattern`,
  `normaliseGapAnalysis` and the gap-analysis parse cascade of the POST handler;
* `src/unnamed/part_008` (benchmark-report route): `wrapText`, `ensureSpace`,
  `safeSectionText`, `safeStringArray`, `safeSkillGaps`, `parseCareerAnchors`
  and the PDF layout loop;
* `src/unnamed/part_006` (CV parsing): `isRateLimit` and the single-retry
  control flow of `parsePdfWithAI`.

JavaScript runtime primitives that the sources call (string methods,
`JSON.parse` / `JSON.stringify`, `Array.prototype.sort`, font metrics,
`Date` parsing) are modelled by explicit total Lean functions; numbers are
modelled by `ℚ` (the sources never produce `NaN`/`Infinity` on the paths
verified here, every parse failure being routed through `null` checks).
Definitions named without a `spec` prefix are translated from the source;
definitions whose name contains `spec` restate the specification's words for
refinement comparisons.
-/

/-! ## JavaScript string primitives -/

/-- JS `String.prototype.trim` on a character list. -/
def jsTrimL (l : List Char) : List Char :=
  ((l.dropWhile Char.isWhitespace).reverse.dropWhile Char.isWhitespace).reverse

/-- JS `String.prototype.trim`. -/
def jsTrim (s : String) : String := ⟨jsTrimL s.data⟩

/-- JS `String.prototype.toLowerCase` (ASCII model). -/
def jsLower (s : String) : String := ⟨s.data.map Char.toLower⟩

/-- JS `hay.includes(needle)`. -/
def jsIncludes (hay needle : String) : Bool := decide (needle.data <:+: hay.data)

/-- JS `s.startsWith(pre)`. -/
def jsStartsWith (s pre : String) : Bool := decide (pre.data <+: s.data)

/-- JS `s.split(/\s+/)` on character lists: splits at maximal whitespace runs,
keeping the (possibly empty) fragments before the first and after the last run.
`inWs` records whether we are inside a whitespace run (so the fragment has
already been emitted). -/
def splitWsGo (inWs : Bool) (cur : List Char) : List Char → List (List Char)
  | [] => [cur.reverse]
  | c :: rest =>
    if c.isWhitespace then
      if inWs then splitWsGo true [] rest
      else cur.reverse :: splitWsGo true [] rest
    else splitWsGo false (c :: cur) rest

/-- JS `s.replace(/\s+/g, " ")` on character lists: each maximal whitespace
run becomes a single space (`prevWs` records whether the previous character
was part of a whitespace run). -/
def collapseWsGo (prevWs : Bool) : List Char → List Char
  | [] => []
  | c :: rest =>
    if c.isWhitespace then
      (if prevWs then [] else [' ']) ++ collapseWsGo true rest
    else c :: collapseWsGo false rest

/-- JS `s.replace(/\s+/g, " ")`. -/
def collapseWsL (l : List Char) : List Char := collapseWsGo false l

/-- JS `s.split(sep)` for a single separator character, keeping empty fragments. -/
def splitCharAux (sep : Char) (cur : List Char) : List Char → List (List Char)
  | [] => [cur.reverse]
  | c :: rest =>
    if c = sep then cur.reverse :: splitCharAux sep [] rest
    else splitCharAux sep (c :: cur) rest

/-! ## `impactDensity` (part_009 lines 446-454) -/

/-- A token is "impactful" when it contains a digit, `%` or `$`
(the body of the `tokens.filter` callback). -/
def isImpactTok (t : List Char) : Bool :=
  t.any fun c => c.isDigit || c = '%' || c = '$'

/-- The token list built by `impactDensity`:
`text.replace(/\s+/g, " ").split(" ").filter(Boolean)`. -/
def jsTokens (s : String) : List (List Char) :=
  (splitCharAux ' ' [] (collapseWsL s.data)).filter (· ≠ [])

/-- `impactDensity` from part_009: the impactful-token ratio over `jsTokens`;
`0` for `null`/`undefined`/empty text. -/
def impactDensity (text : Option String) : ℚ :=
  match text with
  | none => 0
  | some s =>
    if s = "" then 0
    else if (jsTokens s).length = 0 then 0
    else (((jsTokens s).filter isImpactTok).length : ℚ) / ((jsTokens s).length : ℚ)

/-- Modelled from the spec's words: "count of whitespace-delimited tokens
containing a digit, `%`, or `$`, divided by the total token count; 0 if text is
empty/absent". -/
def specTokens (s : String) : List (List Char) :=
  (splitWsGo false [] s.data).filter (· ≠ [])

/-- Spec-side impact density. -/
def specImpactDensity (s : String) : ℚ :=
  if (specTokens s).length = 0 then 0
  else ((specTokens s).filter isImpactTok).length / ((specTokens s).length : ℚ)

/-! ## Data model and `findGoldenStep` (part_009 lines 412-434) -/

structure ExperienceEntry where
  title : String
  company : String
  start_date : Option String := none
  end_date : Option String := none
  description : Option String := none
deriving DecidableEq

structure SuccessProfile where
  full_name : String
  current_occupation : String
  experience_history : List ExperienceEntry
  skills : List String
  education : List String
deriving DecidableEq

/-- The role/company match test used by `findGoldenStep`:
case-insensitive substring containment on both title and company. -/
def goldenMatch (targetRole targetCompany : String) (e : ExperienceEntry) : Bool :=
  jsIncludes (jsLower e.title) (jsLower targetRole) &&
    jsIncludes (jsLower e.company) (jsLower targetCompany)

/-- The indexed loop of `findGoldenStep`: `for (i = 0; i < exps.length - 1; i++)`
examining `current = exps[i]`, `prev = exps[i+1]`. -/
def findGoldenStepGo (r c : String) : List ExperienceEntry → Option ExperienceEntry
  | [] => none
  | [_] => none
  | cur :: p :: rest =>
    if goldenMatch r c cur then some p else findGoldenStepGo r c (p :: rest)

/-- `findGoldenStep` from part_009 (the `if (!exps.length) return null` guard is
subsumed by the empty-list case of the loop). -/
def findGoldenStep (p : SuccessProfile) (targetRole targetCompany : String) :
    Option ExperienceEntry :=
  findGoldenStepGo targetRole targetCompany p.experience_history

/-- Modelled from the spec's words: scan from the most-recent entry, take the
first entry whose title/company both match, and return the entry immediately
following it; "not found" when nothing matches or the match is the oldest entry. -/
def specGoldenStepGo (r c : String) : List ExperienceEntry → Option ExperienceEntry
  | [] => none
  | e :: rest => if goldenMatch r c e then rest.head? else specGoldenStepGo r c rest

/-- Spec-side golden step extractor. -/
def specGoldenStep (p : SuccessProfile) (targetRole targetCompany : String) :
    Option ExperienceEntry :=
  specGoldenStepGo targetRole targetCompany p.experience_history

/-! ## Lemmas: tokenization equivalence -/

lemma splitChar_collapse_eq_splitWs (l : List Char) :
    (∀ cur, (splitCharAux ' ' cur (collapseWsGo false l)).filter (· ≠ []) =
        (splitWsGo false cur l).filter (· ≠ []))
    ∧ (splitCharAux ' ' [] (collapseWsGo true l)).filter (· ≠ []) =
        (splitWsGo true [] l).filter (· ≠ []) := by
  induction l with
  | nil => constructor <;> simp [collapseWsGo, splitCharAux, splitWsGo]
  | cons c rest ih =>
    by_cases hws : c.isWhitespace
    · constructor
      · intro cur
        have h2 := ih.2
        by_cases hcur : cur = [] <;>
          simp [collapseWsGo, splitCharAux, splitWsGo, hws, hcur] <;> simpa using h2
      · simp only [collapseWsGo, splitCharAux, splitWsGo, hws, if_true, List.nil_append]
        simpa using ih.2
    · have hne : c ≠ ' ' := by
        intro h; subst h; simp at hws
      constructor
      · intro cur
        simp only [collapseWsGo, splitCharAux, splitWsGo, hws, hne, if_false,
          Bool.false_eq_true]
        simpa using ih.1 (c :: cur)
      · simp only [collapseWsGo, splitCharAux, splitWsGo, hws, hne, if_false,
          Bool.false_eq_true]
        simpa using ih.1 [c]

lemma jsTokens_eq_specTokens (s : String) : jsTokens s = specTokens s :=
  (splitChar_collapse_eq_splitWs s.data).1 []

lemma impactDensity_eq_spec (s : String) :
    impactDensity (some s) = specImpactDensity s := by
  by_cases hs : s = ""
  · subst hs
    have h : specTokens "" = [] := by decide
    simp [impactDensity, specImpactDensity, h, jsTokens_eq_specTokens]
  · simp only [impactDensity, specImpactDensity, hs, if_false, jsTokens_eq_specTokens]

lemma impactDensity_nonneg (t : Option String) : 0 ≤ impactDensity t := by
  match t with
  | none => simp [impactDensity]
  | some s =>
    simp only [impactDensity]
    by_cases hs : s = ""
    · simp [hs]
    · simp only [hs, if_false]
      by_cases h0 : (jsTokens s).length = 0
      · simp [h0]
      · simp only [h0, if_false]
        positivity

lemma impactDensity_le_one (t : Option String) : impactDensity t ≤ 1 := by
  match t with
  | none => simp [impactDensity]
  | some s =>
    simp only [impactDensity]
    by_cases hs : s = ""
    · simp [hs]
    · simp only [hs, if_false]
      by_cases h0 : (jsTokens s).length = 0
      · simp [h0]
      · simp only [h0, if_false]
        rw [div_le_one (by exact_mod_cast Nat.pos_of_ne_zero h0)]
        exact_mod_cast List.length_filter_le _ _

/-! ## Claim theorems C7 and C2 -/

/-- C7: impact density equals the count of whitespace-delimited tokens
containing a digit, `%`, or `$`, divided by the total token count; it is `0`
for empty or absent text; it is always in `[0, 1]`; `impactDensity("") = 0`;
and `impactDensity("grew revenue 20% to $5M")` is strictly positive and at
most `1`. -/
theorem c7_impactDensity :
    (∀ s : String, impactDensity (some s) = specImpactDensity s)
    ∧ impactDensity none = 0
    ∧ (∀ t : Option String, 0 ≤ impactDensity t ∧ impactDensity t ≤ 1)
    ∧ impactDensity (some "") = 0
    ∧ 0 < impactDensity (some "grew revenue 20% to $5M")
    ∧ impactDensity (some "grew revenue 20% to $5M") ≤ 1 := by
  refine ⟨impactDensity_eq_spec, by simp [impactDensity],
    fun t => ⟨impactDensity_nonneg t, impactDensity_le_one t⟩, by simp [impactDensity], ?_, ?_⟩
  · have hlen : (jsTokens "grew revenue 20% to $5M").length = 5 := by decide
    have himp : ((jsTokens "grew revenue 20% to $5M").filter isImpactTok).length = 2 := by
      decide
    have hne : "grew revenue 20% to $5M" ≠ "" := by decide
    simp only [impactDensity, hlen, himp, hne, if_false]
    norm_num
  · exact impactDensity_le_one _

/-- C2: `findGoldenStep` returns the entry immediately following the first
entry (scanning newest to oldest) whose title contains the target role and
whose company contains the target company, both as case-insensitive
substrings; it returns `none` when nothing matches or the first match is the
oldest entry, and the first qualifying match wins. -/
theorem c2_findGoldenStep (p : SuccessProfile) (targetRole targetCompany : String) :
    findGoldenStep p targetRole targetCompany = specGoldenStep p targetRole targetCompany := by
  unfold findGoldenStep specGoldenStep
  induction p.experience_history with
  | nil => rfl
  | cons e rest ih =>
    match rest with
    | [] =>
      simp only [findGoldenStepGo, specGoldenStepGo]
      by_cases h : goldenMatch targetRole targetCompany e
      · simp [h]
      · simp [h, specGoldenStepGo]
    | f :: rest' =>
      simp only [findGoldenStepGo, specGoldenStepGo]
      by_cases h : goldenMatch targetRole targetCompany e
      · simp [h]
      · simp only [h, if_false]
        exact ih

/-! ## `tenureInYears` and `deriveSuccessPattern` (part_009 lines 436-514)

`parseDate` models the JS `new Date(string).getTime()` boundary: `none` stands
for an Invalid Date (`NaN` timestamp), `some ms` for a finite millisecond
timestamp.  `now` models `new Date().getTime()` at request time. -/

/-- `1000 * 60 * 60 * 24 * 365.25` milliseconds per year. -/
def msPerYear : ℚ := 31557600000

/-- `tenureInYears` from part_009: `null` when the start date is missing,
empty (falsy) or unparseable, or when an explicitly given end date is
unparseable; otherwise `(end-or-now − start) / 365.25` years clamped to `≥ 0`. -/
def tenureInYears (parseDate : String → Option ℚ) (now : ℚ)
    (exp : ExperienceEntry) : Option ℚ :=
  match exp.start_date with
  | none => none
  | some sd =>
    if sd = "" then none
    else
      match parseDate sd with
      | none => none
      | some start =>
        match exp.end_date with
        | some ed =>
          if ed = "" then some (max ((now - start) / msPerYear) 0)
          else
            match parseDate ed with
            | none => none
            | some endMs => some (max ((endMs - start) / msPerYear) 0)
        | none => some (max ((now - start) / msPerYear) 0)

/-- The `goldenRoles` list accumulated by the loop in `deriveSuccessPattern`. -/
def goldenRoles (profiles : List SuccessProfile) (r c : String) : List String :=
  profiles.filterMap fun p => (findGoldenStep p r c).map (·.title)

/-- The `tenures` list accumulated by the loop in `deriveSuccessPattern`
(only golden steps whose dates parse contribute). -/
def goldenTenures (pd : String → Option ℚ) (now : ℚ)
    (profiles : List SuccessProfile) (r c : String) : List ℚ :=
  profiles.filterMap fun p => (findGoldenStep p r c).bind (tenureInYears pd now)

/-- The `impactScores` list accumulated by the loop in `deriveSuccessPattern`
(every golden step contributes, a missing description scoring `0`). -/
def goldenImpacts (profiles : List SuccessProfile) (r c : String) : List ℚ :=
  profiles.filterMap fun p =>
    (findGoldenStep p r c).map fun g => impactDensity g.description

/-- The `allSkills` pool: every profile's skills, in order, no dedup. -/
def allSkills (profiles : List SuccessProfile) : List String :=
  (profiles.map (·.skills)).flatten

/-- Role counting keys: `r.trim()` (note: NOT lowercased in the source),
empty keys skipped. -/
def roleKeys (roles : List String) : List String :=
  (roles.map jsTrim).filter (· ≠ "")

/-- Skill counting keys: `s.toLowerCase().trim()`, empty keys skipped. -/
def skillKeys (skills : List String) : List String :=
  (skills.map fun s => jsTrim (jsLower s)).filter (· ≠ "")

/-- Modelled from the spec's words ("case-insensitive, trimmed" role keys),
for comparison with the source's `roleKeys`. -/
def specRoleKeysCI (roles : List String) : List String :=
  (roles.map fun r => jsTrim (jsLower r)).filter (· ≠ "")

/-- One `counts.set(key, (counts.get(key) ?? 0) + 1)` step on an
insertion-ordered association list (the JS `Map` iteration-order model). -/
def bumpKey : List (String × Nat) → String → List (String × Nat)
  | [], k => [(k, 1)]
  | (k', n) :: rest, k =>
    if k' = k then (k', n + 1) :: rest else (k', n) :: bumpKey rest k

/-- JS `Map`-based counting: keys in first-occurrence order with their counts. -/
def tally (keys : List String) : List (String × Nat) := keys.foldl bumpKey []

/-- One step of the stable descending sort: insert after all entries with a
count `≥` the new entry's count.  This models the (stable)
`entries.sort((a, b) => b[1] - a[1])`. -/
def insertDesc (x : String × Nat) : List (String × Nat) → List (String × Nat)
  | [] => [x]
  | y :: ys => if x.2 ≤ y.2 then y :: insertDesc x ys else x :: y :: ys

/-- Stable sort by descending count (extensionally equal to any stable sort
with comparator `b[1] - a[1]`, hence to the ES2019+ `Array.prototype.sort`). -/
def sortDesc (l : List (String × Nat)) : List (String × Nat) :=
  l.foldl (fun acc x => insertDesc x acc) []

/-- `.sort(...).slice(0, n).map(([k]) => k)`. -/
def rankTop (n : Nat) (keys : List String) : List String :=
  ((sortDesc (tally keys)).take n).map Prod.fst

/-- Arithmetic mean with the source's `length > 0 ? sum / length : 0` fallback. -/
def listAvg (l : List ℚ) : ℚ :=
  if l.length = 0 then 0 else l.sum / (l.length : ℚ)

structure SuccessPattern where
  common_previous_roles : List String
  top_skills_delta : List String
  avg_tenure_in_previous_step : ℚ
  impact_keyword_density : ℚ
deriving DecidableEq

/-- `deriveSuccessPattern` from part_009. -/
def deriveSuccessPattern (pd : String → Option ℚ) (now : ℚ)
    (profiles : List SuccessProfile) (targetRole targetCompany : String) :
    SuccessPattern where
  common_previous_roles := rankTop 5 (roleKeys (goldenRoles profiles targetRole targetCompany))
  top_skills_delta := rankTop 20 (skillKeys (allSkills profiles))
  avg_tenure_in_previous_step := listAvg (goldenTenures pd now profiles targetRole targetCompany)
  impact_keyword_density := listAvg (goldenImpacts profiles targetRole targetCompany)

/-- Modelled from the spec's words: the role ranking the claim describes,
with case-insensitive trimmed keys. -/
def specCommonRolesCI (profiles : List SuccessProfile) (r c : String) : List String :=
  rankTop 5 (specRoleKeysCI (goldenRoles profiles r c))

/-! ## Stable-sort lemmas for the ranking -/

/-- Descending-count order between adjacent ranked entries. -/
def countGE (a b : String × Nat) : Prop := b.2 ≤ a.2

lemma insertDesc_mem (x z : String × Nat) (l : List (String × Nat)) :
    z ∈ insertDesc x l ↔ z = x ∨ z ∈ l := by
  induction l with
  | nil => simp [insertDesc]
  | cons y ys ih =>
    by_cases h : x.2 ≤ y.2
    · simp only [insertDesc, h, if_true, List.mem_cons, ih]
      try tauto
    · simp only [insertDesc, h, if_false, List.mem_cons]
      try tauto

lemma insertDesc_sorted (x : String × Nat) (l : List (String × Nat))
    (hl : l.Pairwise countGE) : (insertDesc x l).Pairwise countGE := by
  induction l with
  | nil => simp [insertDesc, List.pairwise_singleton]
  | cons y ys ih =>
    rcases List.pairwise_cons.mp hl with ⟨hy, hys⟩
    by_cases h : x.2 ≤ y.2
    · simp only [insertDesc, h, if_true]
      refine List.pairwise_cons.mpr ⟨?_, ih hys⟩
      intro z hz
      rcases (insertDesc_mem x z ys).mp hz with rfl | hz
      · exact h
      · exact hy z hz
    · simp only [insertDesc, h, if_false]
      push_neg at h
      refine List.pairwise_cons.mpr ⟨?_, hl⟩
      intro z hz
      rcases List.mem_cons.mp hz with rfl | hz
      · exact le_of_lt h
      · exact le_trans (hy z hz) (le_of_lt h)

lemma insertDesc_filter (x : String × Nat) (l : List (String × Nat))
    (hl : l.Pairwise countGE) (n : Nat) :
    (insertDesc x l).filter (fun y => y.2 = n) =
      if x.2 = n then (l.filter (fun y => y.2 = n)) ++ [x]
      else l.filter (fun y => y.2 = n) := by
  induction l with
  | nil =>
    by_cases hx : x.2 = n <;> simp [insertDesc, hx]
  | cons y ys ih =>
    rcases List.pairwise_cons.mp hl with ⟨hy, hys⟩
    by_cases h : x.2 ≤ y.2
    · simp only [insertDesc, h, if_true, List.filter_cons]
      rw [ih hys]
      by_cases hx : x.2 = n <;> by_cases hyn : y.2 = n <;>
        simp [hx, hyn]
    · push_neg at h
      simp only [insertDesc, h.not_le, if_false]
      by_cases hx : x.2 = n
      · have hempty : (y :: ys).filter (fun z => z.2 = n) = [] := by
          rw [List.filter_eq_nil_iff]
          intro z hz
          have hzle : z.2 ≤ y.2 := by
            rcases List.mem_cons.mp hz with rfl | hz
            · exact le_rfl
            · exact hy z hz
          have : z.2 < n := lt_of_le_of_lt hzle (hx ▸ h)
          simp [Nat.ne_of_lt this]
        rw [List.filter_cons]
        simp only [hx, if_true, hempty]
        have hyn : ¬ (y.2 = n) := by
          have : y.2 < n := hx ▸ h
          exact Nat.ne_of_lt this
        have hysn : ys.filter (fun z => z.2 = n) = [] := by
          rw [List.filter_eq_nil_iff]
          intro z hz
          have : z.2 < n := lt_of_le_of_lt (hy z hz) (hx ▸ h)
          simp [Nat.ne_of_lt this]
        simp [hyn, hysn]
      · simp [List.filter_cons, hx]

lemma sortDesc_invariant (l : List (String × Nat)) :
    ∀ acc, acc.Pairwise countGE →
      (l.foldl (fun acc x => insertDesc x acc) acc).Pairwise countGE
      ∧ ∀ n, (l.foldl (fun acc x => insertDesc x acc) acc).filter (fun y => y.2 = n) =
          (acc.filter (fun y => y.2 = n)) ++ (l.filter (fun y => y.2 = n)) := by
  induction l with
  | nil => intro acc hacc; exact ⟨hacc, fun n => by simp⟩
  | cons x xs ih =>
    intro acc hacc
    have hstep := insertDesc_sorted x acc hacc
    obtain ⟨hsorted, hfilter⟩ := ih (insertDesc x acc) hstep
    refine ⟨hsorted, fun n => ?_⟩
    rw [List.foldl_cons] at *
    rw [hfilter n, insertDesc_filter x acc hacc n, List.filter_cons]
    by_cases hx : x.2 = n <;> simp [hx]

/-- `sortDesc` output is sorted by descending count. -/
lemma sortDesc_sorted (l : List (String × Nat)) : (sortDesc l).Pairwise countGE :=
  (sortDesc_invariant l [] (by simp)).1

/-- `sortDesc` is stable: entries with any fixed count appear in their
original relative order. -/
lemma sortDesc_stable (l : List (String × Nat)) (n : Nat) :
    (sortDesc l).filter (fun y => y.2 = n) = l.filter (fun y => y.2 = n) := by
  have h := (sortDesc_invariant l [] (by simp)).2 n
  simpa [sortDesc] using h

lemma rankTop_length_le (n : Nat) (keys : List String) :
    (rankTop n keys).length ≤ n := by
  simp only [rankTop, List.length_map]
  exact le_trans (List.length_take_le _ _) le_rfl

/-! ## Average lemmas -/

lemma listAvg_nonneg (l : List ℚ) (h : ∀ x ∈ l, 0 ≤ x) : 0 ≤ listAvg l := by
  unfold listAvg
  by_cases h0 : l.length = 0
  · simp [h0]
  · simp only [h0, if_false]
    exact div_nonneg (List.sum_nonneg h) (by positivity)

lemma listAvg_le_one (l : List ℚ) (h : ∀ x ∈ l, x ≤ 1) : listAvg l ≤ 1 := by
  unfold listAvg
  by_cases h0 : l.length = 0
  · simp [h0]
  · simp only [h0, if_false]
    rw [div_le_one (by exact_mod_cast Nat.pos_of_ne_zero h0)]
    calc l.sum ≤ l.length • (1 : ℚ) := List.sum_le_card_nsmul l 1 h
    _ = (l.length : ℚ) := by simp

lemma tenureInYears_nonneg (pd : String → Option ℚ) (now : ℚ)
    (e : ExperienceEntry) (t : ℚ) (h : tenureInYears pd now e = some t) : 0 ≤ t := by
  unfold tenureInYears at h
  rcases hsd0 : e.start_date with _ | sd <;> rw [hsd0] at h
  · simp at h
  · dsimp only at h
    by_cases hsd : sd = ""
    · simp [hsd] at h
    · rw [if_neg hsd] at h
      rcases hpd : pd sd with _ | start <;> rw [hpd] at h
      · simp at h
      · dsimp only at h
        rcases hed0 : e.end_date with _ | ed <;> rw [hed0] at h
        · simp only [Option.some.injEq] at h
          exact h ▸ le_max_right _ _
        · dsimp only at h
          by_cases hed : ed = ""
          · rw [if_pos hed] at h
            simp only [Option.some.injEq] at h
            exact h ▸ le_max_right _ _
          · rw [if_neg hed] at h
            rcases hpe : pd ed with _ | endMs <;> rw [hpe] at h
            · simp at h
            · dsimp only at h
              simp only [Option.some.injEq] at h
              exact h ▸ le_max_right _ _

lemma goldenTenures_nonneg (pd : String → Option ℚ) (now : ℚ)
    (profiles : List SuccessProfile) (r c : String) :
    ∀ x ∈ goldenTenures pd now profiles r c, 0 ≤ x := by
  intro x hx
  unfold goldenTenures at hx
  rcases List.mem_filterMap.mp hx with ⟨p, _, hp⟩
  rcases Option.bind_eq_some.mp hp with ⟨g, _, hg⟩
  exact tenureInYears_nonneg pd now g x hg

lemma goldenImpacts_mem (profiles : List SuccessProfile) (r c : String) :
    ∀ x ∈ goldenImpacts profiles r c, 0 ≤ x ∧ x ≤ 1 := by
  intro x hx
  unfold goldenImpacts at hx
  rcases List.mem_filterMap.mp hx with ⟨p, _, hp⟩
  rcases Option.map_eq_some'.mp hp with ⟨g, _, hg⟩
  exact hg ▸ ⟨impactDensity_nonneg _, impactDensity_le_one _⟩

/-! ## Claim theorems C6 and C3 -/

/-- C6: both averages are non-negative (and the impact density is also at most
`1`); every defined tenure value is non-negative (it is clamped to `≥ 0`);
entries with a missing or unparseable start date yield no tenure sample; and
when no samples contributed, each average defaults to `0`.  Finiteness holds by
construction: every value lives in `ℚ` because `Invalid Date` timestamps are
modelled as `none` and filtered out exactly as the source's `Number.isNaN`
guards do. -/
theorem c6_averages (pd : String → Option ℚ) (now : ℚ)
    (profiles : List SuccessProfile) (r c : String) :
    0 ≤ (deriveSuccessPattern pd now profiles r c).avg_tenure_in_previous_step
    ∧ 0 ≤ (deriveSuccessPattern pd now profiles r c).impact_keyword_density
    ∧ (deriveSuccessPattern pd now profiles r c).impact_keyword_density ≤ 1
    ∧ (∀ e t, tenureInYears pd now e = some t → 0 ≤ t)
    ∧ (∀ e, e.start_date = none → tenureInYears pd now e = none)
    ∧ (∀ e sd, e.start_date = some sd → pd sd = none → tenureInYears pd now e = none)
    ∧ (goldenTenures pd now profiles r c = [] →
        (deriveSuccessPattern pd now profiles r c).avg_tenure_in_previous_step = 0)
    ∧ (goldenImpacts profiles r c = [] →
        (deriveSuccessPattern pd now profiles r c).impact_keyword_density = 0) := by
  refine ⟨listAvg_nonneg _ (goldenTenures_nonneg pd now profiles r c),
    listAvg_nonneg _ (fun x hx => (goldenImpacts_mem profiles r c x hx).1),
    listAvg_le_one _ (fun x hx => (goldenImpacts_mem profiles r c x hx).2),
    tenureInYears_nonneg pd now, ?_, ?_, ?_, ?_⟩
  · intro e he
    simp [tenureInYears, he]
  · intro e sd hsd hpd
    unfold tenureInYears
    rw [hsd]
    dsimp only
    by_cases h0 : sd = ""
    · simp [h0]
    · rw [if_neg h0, hpd]
  · intro h
    show listAvg (goldenTenures pd now profiles r c) = 0
    rw [h]; simp [listAvg]
  · intro h
    show listAvg (goldenImpacts profiles r c) = 0
    rw [h]; simp [listAvg]

/-- Witness for C6 at concrete inputs. -/
theorem c6_averages_witness :
    (0 : ℚ) ≤ (deriveSuccessPattern (fun _ => none) 0 [] "" "").avg_tenure_in_previous_step
    ∧ tenureInYears (fun _ => none) 0 ⟨"a", "b", none, none, none⟩ = none
    ∧ tenureInYears (fun _ => none) 0 ⟨"a", "b", some "2020-01-01", none, none⟩ = none
    ∧ (deriveSuccessPattern (fun _ => none) 0 [] "" "").avg_tenure_in_previous_step = 0
    ∧ (deriveSuccessPattern (fun _ => none) 0 [] "" "").impact_keyword_density = 0 := by
  obtain ⟨h1, _, _, _, h5, h6, h7, h8⟩ := c6_averages (fun _ => none) 0 [] "" ""
  exact ⟨h1, h5 _ rfl, h6 _ "2020-01-01" rfl rfl, h7 rfl, h8 rfl⟩

/-- C3 (amended): the emitted role list has length at most 5 and the skill
list at most 20; skills are counted under case-insensitive trimmed keys but
roles are counted under case-SENSITIVE trimmed keys (`r.trim()` without
`toLowerCase` in the source); both rankings sort by descending raw occurrence
count with ties kept in first-occurrence (insertion) order, as witnessed by
the sortedness and stable-filter properties of the ranking. -/
theorem c3_ranking (pd : String → Option ℚ) (now : ℚ)
    (profiles : List SuccessProfile) (r c : String) :
    (deriveSuccessPattern pd now profiles r c).common_previous_roles.length ≤ 5
    ∧ (deriveSuccessPattern pd now profiles r c).top_skills_delta.length ≤ 20
    ∧ (deriveSuccessPattern pd now profiles r c).common_previous_roles
        = rankTop 5 (roleKeys (goldenRoles profiles r c))
    ∧ (deriveSuccessPattern pd now profiles r c).top_skills_delta
        = rankTop 20 (skillKeys (allSkills profiles))
    ∧ (sortDesc (tally (roleKeys (goldenRoles profiles r c)))).Pairwise countGE
    ∧ (∀ n, (sortDesc (tally (roleKeys (goldenRoles profiles r c)))).filter (fun y => y.2 = n)
        = (tally (roleKeys (goldenRoles profiles r c))).filter (fun y => y.2 = n))
    ∧ (sortDesc (tally (skillKeys (allSkills profiles)))).Pairwise countGE
    ∧ (∀ n, (sortDesc (tally (skillKeys (allSkills profiles)))).filter (fun y => y.2 = n)
        = (tally (skillKeys (allSkills profiles))).filter (fun y => y.2 = n)) :=
  ⟨rankTop_length_le _ _, rankTop_length_le _ _, rfl, rfl,
    sortDesc_sorted _, sortDesc_stable _, sortDesc_sorted _, sortDesc_stable _⟩

/-- Two profiles whose golden-step titles differ only in letter case. -/
def c3CexProfiles : List SuccessProfile :=
  [ { full_name := "P1", current_occupation := "CEO",
      experience_history :=
        [⟨"CEO", "Acme", none, none, none⟩, ⟨"Analyst", "X", none, none, none⟩],
      skills := [], education := [] },
    { full_name := "P2", current_occupation := "CEO",
      experience_history :=
        [⟨"CEO", "Acme", none, none, none⟩, ⟨"analyst", "X", none, none, none⟩],
      skills := [], education := [] } ]

/-- C3 counterexample: role occurrences are NOT counted case-insensitively.
With golden-step titles "Analyst" and "analyst" the source emits both
spellings as separate ranked roles, while the claimed case-insensitive
counting would merge them into one. -/
theorem c3_counterexample :
    (deriveSuccessPattern (fun _ => none) 0 c3CexProfiles "ceo" "acme").common_previous_roles
      = ["Analyst", "analyst"]
    ∧ specCommonRolesCI c3CexProfiles "ceo" "acme" = ["analyst"]
    ∧ (deriveSuccessPattern (fun _ => none) 0 c3CexProfiles "ceo" "acme").common_previous_roles
      ≠ specCommonRolesCI c3CexProfiles "ceo" "acme" := by
  refine ⟨?_, ?_, ?_⟩ <;> decide

/-! ## JSON value model

`Json` models a parsed JavaScript value as produced by `JSON.parse`
(`undefined` is represented by `Option.none` at use sites). -/

inductive Json where
  | null : Json
  | bool : Bool → Json
  | num : ℚ → Json
  | str : String → Json
  | arr : List Json → Json
  | obj : List (String × Json) → Json

/-- JS truthiness of a parsed value. -/
def jsTruthy : Json → Bool
  | .null => false
  | .bool b => b
  | .num q => q ≠ 0
  | .str s => s ≠ ""
  | .arr _ => true
  | .obj _ => true

/-- `v && typeof v === "object"`: a non-null object or array. -/
def jsObjTruthy : Json → Bool
  | .arr _ => true
  | .obj _ => true
  | _ => false

def Json.isNull : Json → Bool
  | .null => true
  | _ => false

/-- JS property read `o[k]`: `none` models `undefined`.  On duplicate keys the
last one wins (as in a JS object built by `JSON.parse`); on non-objects the
named properties used here are all `undefined`. -/
def jsGet (j : Json) (k : String) : Option Json :=
  match j with
  | .obj kvs => kvs.foldl (fun acc kv => if kv.1 = k then some kv.2 else acc) none
  | _ => none

/-- Decimal rendering of a rational with a power-of-ten denominator; values
produced by parsing decimal notation always have this shape, so the final
fallback is unreachable on every path exercised here. -/
def jsNumToString (q : ℚ) : String :=
  let sign := if q.num < 0 then "-" else ""
  let a := q.num.natAbs
  if q.den = 1 then sign ++ Nat.repr a
  else
    match (List.range 31).find? (fun k => q.den ∣ 10 ^ k) with
    | some k =>
      let scaled := a * 10 ^ k / q.den
      let ip := scaled / 10 ^ k
      let fp := scaled % 10 ^ k
      let fpStr := Nat.repr fp
      sign ++ Nat.repr ip ++ "." ++
        (⟨List.replicate (k - fpStr.length) '0'⟩ ++ fpStr)
    | none => sign ++ Nat.repr a ++ "/" ++ Nat.repr q.den

mutual
/-- JS `String(v)` for a parsed value (arrays join their elements with `","`,
`null`/`undefined` elements rendering as empty; plain objects render as
`"[object Object]"`). -/
def jsToString : Json → String
  | .null => "null"
  | .bool true => "true"
  | .bool false => "false"
  | .num q => jsNumToString q
  | .str s => s
  | .arr l => jsArrToString l
  | .obj _ => "[object Object]"

def jsArrToString : List Json → String
  | [] => ""
  | [Json.null] => ""
  | [x] => jsToString x
  | Json.null :: rest => "," ++ jsArrToString rest
  | x :: rest => jsToString x ++ "," ++ jsArrToString rest
end

/-! ## A model of `JSON.parse` / `JSON.stringify` -/

def isJsonWs (c : Char) : Bool := c = ' ' || c = '\t' || c = '\n' || c = '\r'

def skipJsonWs (l : List Char) : List Char := l.dropWhile isJsonWs

def parseHexDigit (c : Char) : Option Nat :=
  if '0' ≤ c ∧ c ≤ '9' then some (c.toNat - 48)
  else if 'a' ≤ c ∧ c ≤ 'f' then some (c.toNat - 87)
  else if 'A' ≤ c ∧ c ≤ 'F' then some (c.toNat - 55)
  else none

def escSimple (e : Char) : Option Char :=
  if e = '"' then some '"'
  else if e = '\\' then some '\\'
  else if e = '/' then some '/'
  else if e = 'n' then some '\n'
  else if e = 't' then some '\t'
  else if e = 'r' then some '\r'
  else if e = 'b' then some (Char.ofNat 8)
  else if e = 'f' then some (Char.ofNat 12)
  else none

/-- Parse a JSON string body after the opening quote; returns the decoded
characters and the input remaining after the closing quote. -/
def parseStringBody : List Char → Option (List Char × List Char)
  | [] => none
  | '"' :: rest => some ([], rest)
  | '\\' :: e :: r =>
    if e = 'u' then
      match r with
      | h1 :: h2 :: h3 :: h4 :: r2 =>
        match parseHexDigit h1, parseHexDigit h2, parseHexDigit h3, parseHexDigit h4 with
        | some a, some b, some c, some d =>
          (parseStringBody r2).map fun p => (Char.ofNat (((a * 16 + b) * 16 + c) * 16 + d) :: p.1, p.2)
        | _, _, _, _ => none
      | _ => none
    else
      match escSimple e with
      | some ch => (parseStringBody r).map fun p => (ch :: p.1, p.2)
      | none => none
  | c :: rest =>
    if c.toNat < 32 then none
    else (parseStringBody rest).map fun p => (c :: p.1, p.2)

def digitsToNat (ds : List Char) : Nat :=
  ds.foldl (fun acc c => acc * 10 + (c.toNat - 48)) 0

/-- Parse a JSON number token (sign, integer part without leading zeros,
optional fraction, optional exponent). -/
def parseNumber (l : List Char) : Option (ℚ × List Char) :=
  let signAndRest : Bool × List Char :=
    match l with
    | '-' :: r => (true, r)
    | _ => (false, l)
  let neg := signAndRest.1
  let l1 := signAndRest.2
  let ip := l1.takeWhile Char.isDigit
  let r1 := l1.dropWhile Char.isDigit
  if ip = [] then none
  else if 1 < ip.length ∧ ip.head? = some '0' then none
  else
    let fracAndRest : Option (List Char × List Char) :=
      match r1 with
      | '.' :: r =>
        let f := r.takeWhile Char.isDigit
        if f = [] then none else some (f, r.dropWhile Char.isDigit)
      | _ => some ([], r1)
    match fracAndRest with
    | none => none
    | some (fd, r2) =>
      let expAndRest : Option (Int × List Char) :=
        match r2 with
        | 'e' :: r => parseExpTail r
        | 'E' :: r => parseExpTail r
        | _ => some (0, r2)
      match expAndRest with
      | none => none
      | some (ex, r3) =>
        let mantissa : ℚ :=
          ((digitsToNat ip * 10 ^ fd.length + digitsToNat fd : Nat) : ℚ) / ((10 ^ fd.length : Nat) : ℚ)
        let value := (if neg then -mantissa else mantissa) * (10 : ℚ) ^ ex
        some (value, r3)
where
  parseExpTail (r : List Char) : Option (Int × List Char) :=
    let sgnAndRest : Bool × List Char :=
      match r with
      | '+' :: rr => (false, rr)
      | '-' :: rr => (true, rr)
      | _ => (false, r)
    let ds := sgnAndRest.2.takeWhile Char.isDigit
    if ds = [] then none
    else
      let n : Int := digitsToNat ds
      some (if sgnAndRest.1 then -n else n, sgnAndRest.2.dropWhile Char.isDigit)

mutual
/-- Fuel-indexed recursive-descent JSON value parser. -/
def parseValue : Nat → List Char → Option (Json × List Char)
  | 0, _ => none
  | fuel + 1, l0 =>
    match skipJsonWs l0 with
    | 't' :: 'r' :: 'u' :: 'e' :: r => some (.bool true, r)
    | 'f' :: 'a' :: 'l' :: 's' :: 'e' :: r => some (.bool false, r)
    | 'n' :: 'u' :: 'l' :: 'l' :: r => some (.null, r)
    | '"' :: r => (parseStringBody r).map fun p => (.str ⟨p.1⟩, p.2)
    | '[' :: r =>
      match skipJsonWs r with
      | ']' :: r2 => some (.arr [], r2)
      | r1 => (parseItems fuel r1).map fun p => (.arr p.1, p.2)
    | '{' :: r =>
      match skipJsonWs r with
      | '}' :: r2 => some (.obj [], r2)
      | r1 => (parseMembers fuel r1).map fun p => (.obj p.1, p.2)
    | l => (parseNumber l).map fun p => (.num p.1, p.2)

def parseItems : Nat → List Char → Option (List Json × List Char)
  | 0, _ => none
  | fuel + 1, l =>
    match parseValue fuel l with
    | none => none
    | some (v, r) =>
      match skipJsonWs r with
      | ',' :: r2 => (parseItems fuel r2).map fun p => (v :: p.1, p.2)
      | ']' :: r2 => some ([v], r2)
      | _ => none

def parseMembers : Nat → List Char → Option (List (String × Json) × List Char)
  | 0, _ => none
  | fuel + 1, l =>
    match skipJsonWs l with
    | '"' :: r =>
      match parseStringBody r with
      | none => none
      | some (k, r1) =>
        match skipJsonWs r1 with
        | ':' :: r2 =>
          match parseValue fuel r2 with
          | none => none
          | some (v, r3) =>
            match skipJsonWs r3 with
            | ',' :: r4 => (parseMembers fuel r4).map fun p => ((⟨k⟩, v) :: p.1, p.2)
            | '}' :: r4 => some ([(⟨k⟩, v)], r4)
            | _ => none
        | _ => none
    | _ => none
end

/-- Model of `JSON.parse`: `none` models a thrown `SyntaxError`. -/
def Json.parse (s : String) : Option Json :=
  match parseValue (2 * s.data.length + 4) s.data with
  | some (j, rest) => if skipJsonWs rest = [] then some j else none
  | none => none

def hexDigitChar (n : Nat) : Char :=
  if n < 10 then Char.ofNat (48 + n) else Char.ofNat (87 + n)

def escapeChar (c : Char) : List Char :=
  if c = '"' then ['\\', '"']
  else if c = '\\' then ['\\', '\\']
  else if c = '\n' then ['\\', 'n']
  else if c = '\t' then ['\\', 't']
  else if c = '\r' then ['\\', 'r']
  else if c.toNat < 32 then
    ['\\', 'u', '0', '0', hexDigitChar (c.toNat / 16), hexDigitChar (c.toNat % 16)]
  else [c]

def stringifyStr (s : String) : List Char := '"' :: s.data.flatMap escapeChar ++ ['"']

mutual
/-- Model of `JSON.stringify` on parsed values. -/
def stringifyJ : Json → List Char
  | .null => 'n' :: 'u' :: 'l' :: 'l' :: []
  | .bool true => 't' :: 'r' :: 'u' :: 'e' :: []
  | .bool false => 'f' :: 'a' :: 'l' :: 's' :: 'e' :: []
  | .num q => (jsNumToString q).data
  | .str s => stringifyStr s
  | .arr l => '[' :: (stringifyArr l ++ [']'])
  | .obj kvs => '{' :: (stringifyObj kvs ++ ['}'])

def stringifyArr : List Json → List Char
  | [] => []
  | [x] => stringifyJ x
  | x :: rest => stringifyJ x ++ ',' :: stringifyArr rest

def stringifyObj : List (String × Json) → List Char
  | [] => []
  | [kv] => stringifyStr kv.1 ++ ':' :: stringifyJ kv.2
  | kv :: rest => (stringifyStr kv.1 ++ ':' :: stringifyJ kv.2) ++ ',' :: stringifyObj rest
end

def Json.stringify (j : Json) : String := ⟨stringifyJ j⟩

/-! ## `normaliseGapAnalysis` (part_009 lines 517-602) -/

structure TechGap where
  name : String
  resourceUrl : Option String
deriving DecidableEq

structure SkillGapsR where
  missingTechnical : List TechGap
  missingSoft : List String
deriving DecidableEq

structure GapReport where
  overallSummary : String
  trajectoryFit : String
  careerAnchors : List String
  skillGaps : SkillGapsR
  concreteActions : List String
deriving DecidableEq

/-- The `str` helper of `normaliseGapAnalysis`:
`typeof v === "string" ? v.trim() : v != null ? String(v) : ""`. -/
def jsStr (v : Option Json) : String :=
  match v with
  | some (.str s) => jsTrim s
  | some .null => ""
  | none => ""
  | some j => jsToString j

/-- `s.replace(/^[\s\S]*?\{/, "{")`: everything up to and including the first
`{` becomes `{`; no match leaves the string unchanged. -/
def dropToBrace (l : List Char) : List Char :=
  if '{' ∈ l then '{' :: (l.dropWhile (· ≠ '{')).tail else l

/-- `s.replace(/\}[\s\S]*$/, "}")`: everything from the first `}` on becomes
`}`; no match leaves the string unchanged. -/
def truncAfterBrace (l : List Char) : List Char :=
  if '}' ∈ l then l.takeWhile (· ≠ '}') ++ ['}'] else l

/-- `tryParseJsonString` from `normaliseGapAnalysis`. -/
def tryParseJsonString (s : Json) : Json :=
  match s with
  | .str s0 =>
    if jsStartsWith (jsTrim s0) "\x7b" then
      match Json.parse ⟨truncAfterBrace (dropToBrace s0.data)⟩ with
      | some j => j
      | none => .str s0
    else .str s0
  | j => j

/-- `.map((x) => str(x)).filter(Boolean)` over a parsed array. -/
def mapStrArr (l : List Json) : List String :=
  (l.map fun x => jsStr (some x)).filter (· ≠ "")

/-- The `missingTechnical` coercion: `{name, resourceUrl}` objects pass
through, everything else becomes `{name: str(t)}`; entries with falsy names
are dropped. -/
def mapTech (l : List Json) : List TechGap :=
  (l.map fun t =>
    match t with
    | .obj kvs =>
      if kvs.any (·.1 = "name") then
        { name := jsStr (jsGet t "name"),
          resourceUrl :=
            match jsGet t "resourceUrl" with
            | some (.str u) => some u
            | _ => none }
      else { name := jsStr (some t), resourceUrl := none }
    | _ => { name := jsStr (some t), resourceUrl := none }).filter (·.name ≠ "")

/-- Reading a `skillGaps`-shaped object (used identically for the unwrapped
inner object and the outer object in the source). -/
def readSkillGaps (sg : Json) : SkillGapsR where
  missingTechnical :=
    match jsGet sg "missingTechnical" with
    | some (.arr l) => mapTech l
    | _ => []
  missingSoft :=
    match jsGet sg "missingSoft" with
    | some (.arr l) => mapStrArr l
    | _ => []

/-- The body of the `try` block unwrapping a JSON-ish `overallSummary`:
each present, non-null inner field overrides the default. -/
def unwrapInner (overallStr : String) (inner : Json) : GapReport where
  overallSummary :=
    match jsGet inner "overallSummary" with
    | some v => if v.isNull then overallStr else jsStr (some v)
    | none => overallStr
  trajectoryFit :=
    match jsGet inner "trajectoryFit" with
    | some v => if v.isNull then "" else jsStr (some v)
    | none => ""
  careerAnchors :=
    match jsGet inner "careerAnchors" with
    | some (.arr l) => mapStrArr l
    | _ => []
  skillGaps :=
    match jsGet inner "skillGaps" with
    | some sg => if jsObjTruthy sg then readSkillGaps sg else ⟨[], []⟩
    | none => ⟨[], []⟩
  concreteActions :=
    match jsGet inner "concreteActions" with
    | some (.arr l) => mapStrArr l
    | _ => []

/-- `normaliseGapAnalysis` from part_009.  The output structure having
exactly the five report fields is the Lean image of the literal `out`
object; `jsObjTruthy` captures `parsed && typeof parsed === "object"`
(`null` is object-typed but falsy). -/
def normaliseGapAnalysis (raw : Json) : GapReport :=
  let parsed := tryParseJsonString raw
  let obj := if jsObjTruthy parsed then parsed
    else Json.obj [("overallSummary", Json.str (jsStr (some raw)))]
  let overallStr := jsStr (jsGet obj "overallSummary")
  let out1 : GapReport :=
    if overallStr ≠ "" ∧ jsStartsWith overallStr "\x7b" = true then
      match Json.parse overallStr with
      | some inner => unwrapInner overallStr inner
      | none =>
        { overallSummary := overallStr, trajectoryFit := "", careerAnchors := [],
          skillGaps := ⟨[], []⟩, concreteActions := [] }
    else
      { overallSummary := overallStr, trajectoryFit := "", careerAnchors := [],
        skillGaps := ⟨[], []⟩, concreteActions := [] }
  let out2 := if out1.trajectoryFit = "" then
      { out1 with trajectoryFit := jsStr (jsGet obj "trajectoryFit") }
    else out1
  let out3 :=
    match jsGet obj "careerAnchors" with
    | some (.arr l) => { out2 with careerAnchors := mapStrArr l }
    | _ => out2
  let out4 :=
    match jsGet obj "skillGaps" with
    | some sg => if jsObjTruthy sg then { out3 with skillGaps := readSkillGaps sg } else out3
    | none => out3
  match jsGet obj "concreteActions" with
  | some (.arr l) => { out4 with concreteActions := mapStrArr l }
  | _ => out4

/-! ## The gap-analysis parse cascade (part_009 lines 809-860) -/

def charEqCI (a b : Char) : Bool := a.toLower = b.toLower

def isPrefixCI : List Char → List Char → Bool
  | [], _ => true
  | _ :: _, [] => false
  | p :: ps, c :: cs => charEqCI p c && isPrefixCI ps cs

/-- Remove every (case-insensitive, non-overlapping, left-to-right)
occurrence of `pat`, the behaviour of `replace(/pat/gi, "")`. -/
def removeAllCIF (pat : List Char) : Nat → List Char → List Char
  | 0, l => l
  | _, [] => []
  | fuel + 1, c :: rest =>
    if pat ≠ [] ∧ isPrefixCI pat (c :: rest) = true then
      removeAllCIF pat fuel (List.drop (pat.length - 1) rest)
    else c :: removeAllCIF pat fuel rest

/-- `stripFences` from the POST handler:
`text.replace(/```json/gi, "").replace(/```/g, "").trim()`. -/
def stripFences (text : String) : String :=
  let s1 := removeAllCIF "```json".data (text.data.length + 1) text.data
  let s2 := removeAllCIF "```".data (s1.length + 1) s1
  ⟨jsTrimL s2⟩

/-- Step 4's fallback object `{overallSummary: content, ...}`. -/
def gapFallback (content : String) : Json :=
  Json.obj [("overallSummary", .str content), ("trajectoryFit", .str ""),
    ("careerAnchors", .arr []),
    ("skillGaps", .obj [("missingTechnical", .arr []), ("missingSoft", .arr [])]),
    ("concreteActions", .arr [])]

/-- `content.slice(content.indexOf("{"), content.lastIndexOf("}") + 1)` when
both braces exist with the last `}` after the first `{`. -/
def braceSlice (l : List Char) : Option (List Char) :=
  let fb := l.indexOf '{'
  let lb := l.length - 1 - l.reverse.indexOf '}'
  if '{' ∈ l ∧ '}' ∈ l ∧ fb < lb then some ((l.drop fb).take (lb + 1 - fb)) else none

/-- Steps 1-4 of the POST handler's parse cascade: strip fences, direct
parse, inner-string parse, first-to-last-brace parse, fallback object. -/
def gapParseCascade (content0 : String) : Json :=
  let content := stripFences content0
  let g1 := Json.parse content
  let g2 : Option Json :=
    match g1 with
    | some (.str s0) =>
      match Json.parse (stripFences s0) with
      | some j => some j
      | none => some (.str s0)
    | g => g
  let g3 : Option Json :=
    match g2 with
    | some j =>
      if jsObjTruthy j then some j
      else
        match braceSlice content.data with
        | some inner =>
          match Json.parse ⟨inner⟩ with
          | some j2 => some j2
          | none => some j
        | none => some j
    | none =>
      match braceSlice content.data with
      | some inner =>
        match Json.parse ⟨inner⟩ with
        | some j2 => some j2
        | none => none
      | none => none
  match g3 with
  | some j => if jsObjTruthy j then j else gapFallback content
  | none => gapFallback content

/-- Steps 1-5: the full never-throwing normalisation pipeline. -/
def runGapNormalisation (content : String) : GapReport :=
  normaliseGapAnalysis (gapParseCascade content)

/-- The JSON object shape of a `GapReport` (with `overallSummary` replaced by
an arbitrary string, for the double-encoding scenario);
`resourceUrl: undefined` is omitted as `JSON.stringify` does. -/
def techToJson (t : TechGap) : Json :=
  match t.resourceUrl with
  | some u => .obj [("name", .str t.name), ("resourceUrl", .str u)]
  | none => .obj [("name", .str t.name)]

def reportToJsonO (g : GapReport) (overall : String) : Json :=
  .obj [("overallSummary", .str overall),
        ("trajectoryFit", .str g.trajectoryFit),
        ("careerAnchors", .arr (g.careerAnchors.map .str)),
        ("skillGaps", .obj
          [("missingTechnical", .arr (g.skillGaps.missingTechnical.map techToJson)),
           ("missingSoft", .arr (g.skillGaps.missingSoft.map .str))]),
        ("concreteActions", .arr (g.concreteActions.map .str))]

def reportToJson (g : GapReport) : Json := reportToJsonO g g.overallSummary

/-! ## Claim C1: the normalisation pipeline -/

lemma not_startsWith_brace {s : String} (h : '{' ∉ s.data) :
    jsStartsWith s "\x7b" = false := by
  simp only [jsStartsWith, decide_eq_false_iff_not]
  intro hpre
  exact h (hpre.subset (by decide))

lemma braceSlice_none {l : List Char} (h : '{' ∉ l) : braceSlice l = none := by
  simp only [braceSlice]
  rw [if_neg]
  intro hc
  exact h hc.1

lemma jsTrim_empty : jsTrim "" = "" := rfl

lemma normalise_fallback (content : String) (htrim : jsTrim content = content)
    (hstart : jsStartsWith content "\x7b" = false) :
    normaliseGapAnalysis (gapFallback content) =
      { overallSummary := content, trajectoryFit := "", careerAnchors := [],
        skillGaps := ⟨[], []⟩, concreteActions := [] } := by
  simp [normaliseGapAnalysis, tryParseJsonString, gapFallback, jsGet, jsStr, htrim,
    hstart, jsObjTruthy, mapStrArr, mapTech, readSkillGaps, unwrapInner, jsTrim_empty]

/-- C1: for every input text the gap-analysis pipeline (fence stripping, the
four-step parse cascade, and `normaliseGapAnalysis`) produces a report whose
JSON shape carries all five fields (with both `skillGaps` subfields); the
pipeline is a total function, so no parse failure ever escapes to the caller;
and on plain non-JSON prose (no brace, unparseable, no fences or surrounding
whitespace) the output is exactly the prose wrapped as `overallSummary` with
all other fields empty. -/
theorem c1_normalisation :
    (∀ content : String,
        (jsGet (reportToJson (runGapNormalisation content)) "overallSummary").isSome = true
      ∧ (jsGet (reportToJson (runGapNormalisation content)) "trajectoryFit").isSome = true
      ∧ (jsGet (reportToJson (runGapNormalisation content)) "careerAnchors").isSome = true
      ∧ (jsGet (reportToJson (runGapNormalisation content)) "skillGaps").isSome = true
      ∧ (jsGet (reportToJson (runGapNormalisation content)) "concreteActions").isSome = true
      ∧ (∃ sg, jsGet (reportToJson (runGapNormalisation content)) "skillGaps" = some sg
          ∧ (jsGet sg "missingTechnical").isSome = true
          ∧ (jsGet sg "missingSoft").isSome = true))
    ∧ (∀ prose : String, '{' ∉ prose.data → Json.parse prose = none →
        stripFences prose = prose → jsTrim prose = prose →
        runGapNormalisation prose =
          { overallSummary := prose, trajectoryFit := "", careerAnchors := [],
            skillGaps := ⟨[], []⟩, concreteActions := [] }) := by
  constructor
  · intro content
    exact ⟨rfl, rfl, rfl, rfl, rfl, _, rfl, rfl, rfl⟩
  · intro prose hbrace hparse hstrip htrim
    have hbs : braceSlice prose.data = none := braceSlice_none hbrace
    have hcascade : gapParseCascade prose = gapFallback prose := by
      simp [gapParseCascade, hstrip, hparse, hbs]
    rw [runGapNormalisation, hcascade]
    exact normalise_fallback prose htrim (not_startsWith_brace hbrace)

/-- Witness for C1's prose clause at a concrete input. -/
theorem c1_normalisation_witness :
    runGapNormalisation "hello world" =
      { overallSummary := "hello world", trajectoryFit := "", careerAnchors := [],
        skillGaps := ⟨[], []⟩, concreteActions := [] } :=
  c1_normalisation.2 "hello world" (by decide) (by rfl) (by rfl) (by rfl)

/-! ## Claim C4: Report Normalizer round-trips -/

/-- Well-formedness of a report for the round-trip statement: string fields
trimmed, list entries non-empty, and the summary not itself JSON-like. -/
def WFReport (g : GapReport) : Prop :=
  jsTrim g.overallSummary = g.overallSummary
  ∧ jsStartsWith g.overallSummary "\x7b" = false
  ∧ jsTrim g.trajectoryFit = g.trajectoryFit
  ∧ (∀ a ∈ g.careerAnchors, jsTrim a = a ∧ a ≠ "")
  ∧ (∀ t ∈ g.skillGaps.missingTechnical, jsTrim t.name = t.name ∧ t.name ≠ "")
  ∧ (∀ s ∈ g.skillGaps.missingSoft, jsTrim s = s ∧ s ≠ "")
  ∧ (∀ a ∈ g.concreteActions, jsTrim a = a ∧ a ≠ "")

instance (g : GapReport) : Decidable (WFReport g) := by
  unfold WFReport
  infer_instance

lemma jsStr_str (s : String) : jsStr (some (Json.str s)) = jsTrim s := rfl

lemma mapStrArr_map_str (l : List String) (h : ∀ a ∈ l, jsTrim a = a ∧ a ≠ "") :
    mapStrArr (l.map Json.str) = l := by
  induction l with
  | nil => rfl
  | cons a rest ih =>
    obtain ⟨ha, hne⟩ := h a (by simp)
    have hr := ih fun x hx => h x (List.mem_cons_of_mem _ hx)
    simp only [mapStrArr, List.map_cons, List.map_map, List.filter_cons, Function.comp_def,
      jsStr_str, ha] at hr ⊢
    simpa [hne] using hr

lemma mapTech_map_techToJson (l : List TechGap)
    (h : ∀ t ∈ l, jsTrim t.name = t.name ∧ t.name ≠ "") :
    mapTech (l.map techToJson) = l := by
  induction l with
  | nil => rfl
  | cons t rest ih =>
    obtain ⟨ht, hne⟩ := h t (by simp)
    have hr := ih fun x hx => h x (List.mem_cons_of_mem _ hx)
    simp only [List.map_cons, mapTech, List.filter_cons] at hr ⊢
    rcases t with ⟨name, url⟩
    rcases url with _ | u <;>
      simp_all [techToJson, jsGet, jsStr, ht, hne]

lemma normalise_reportToJson (g : GapReport) (hwf : WFReport g) :
    normaliseGapAnalysis (reportToJson g) = g := by
  obtain ⟨h1, h2, h3, h4, h5, h6, h7⟩ := hwf
  rcases g with ⟨o, tf, ca, ⟨mt, ms⟩, act⟩
  simp only [reportToJson, reportToJsonO] at *
  simp [normaliseGapAnalysis, tryParseJsonString, jsObjTruthy, jsGet, jsStr,
    h1, h2, h3, readSkillGaps, mapStrArr_map_str ca h4,
    mapTech_map_techToJson mt h5, mapStrArr_map_str ms h6, mapStrArr_map_str act h7]

lemma stringify_obj_startsWith (kvs : List (String × Json)) :
    jsStartsWith (Json.stringify (Json.obj kvs)) "\x7b" = true :=
  decide_eq_true (⟨_, rfl⟩ : "\x7b".data <+: (Json.stringify (Json.obj kvs)).data)

lemma stringify_obj_ne_empty (kvs : List (String × Json)) :
    Json.stringify (Json.obj kvs) ≠ "" := by
  intro h
  have hd : (Json.stringify (Json.obj kvs)).data = "".data := by rw [h]
  simp [Json.stringify, stringifyJ] at hd

lemma normalise_double_encoded (g : GapReport) (hwf : WFReport g)
    (hparse : Json.parse (Json.stringify (reportToJson g)) = some (reportToJson g))
    (htrimS : jsTrim (Json.stringify (reportToJson g)) = Json.stringify (reportToJson g)) :
    normaliseGapAnalysis (reportToJsonO g (Json.stringify (reportToJson g))) = g := by
  obtain ⟨h1, h2, h3, h4, h5, h6, h7⟩ := hwf
  have hstart : jsStartsWith (Json.stringify (reportToJson g)) "\x7b" = true :=
    stringify_obj_startsWith _
  have hne : Json.stringify (reportToJson g) ≠ "" := stringify_obj_ne_empty _
  rcases hg : g with ⟨o, tf, ca, ⟨mt, ms⟩, act⟩
  rw [hg] at hparse htrimS hstart hne h1 h2 h3 h4 h5 h6 h7
  simp only [reportToJson, reportToJsonO] at hparse htrimS hstart hne
  by_cases htf : tf = ""
  · subst htf
    simp [normaliseGapAnalysis, tryParseJsonString, jsObjTruthy, reportToJson, reportToJsonO,
      jsGet, jsStr, Json.isNull, htrimS, hne, hstart, hparse, unwrapInner, readSkillGaps,
      h1, h3, mapStrArr_map_str ca h4, mapTech_map_techToJson mt h5,
      mapStrArr_map_str ms h6, mapStrArr_map_str act h7]
  · simp [normaliseGapAnalysis, tryParseJsonString, jsObjTruthy, reportToJson, reportToJsonO,
      jsGet, jsStr, Json.isNull, htrimS, hne, hstart, hparse, unwrapInner, readSkillGaps,
      h1, h3, htf, mapStrArr_map_str ca h4, mapTech_map_techToJson mt h5,
      mapStrArr_map_str ms h6, mapStrArr_map_str act h7]

lemma cascade_of_parse_obj (content : String) (kvs : List (String × Json))
    (hstrip : stripFences content = content)
    (hparse : Json.parse content = some (Json.obj kvs)) :
    gapParseCascade content = Json.obj kvs := by
  simp [gapParseCascade, hstrip, hparse, jsObjTruthy]

/-- C4: feeding the Report Normalizer a well-formed `GapReport` JSON string
returns an equivalent report, and feeding it the same report with its own
serialization double-encoded inside `overallSummary` recovers the same five
fields, because a JSON-looking `overallSummary` (a string starting with `{`
that parses to an object) is unwrapped and the inner object's fields are
preferred.  The `JSON.parse`/`JSON.stringify` boundary facts are hypotheses
discharged by computation at the witness. -/
theorem c4_report_roundtrip (g : GapReport) (hwf : WFReport g)
    (hparse : Json.parse (Json.stringify (reportToJson g)) = some (reportToJson g))
    (hstrip : stripFences (Json.stringify (reportToJson g)) = Json.stringify (reportToJson g))
    (htrimS : jsTrim (Json.stringify (reportToJson g)) = Json.stringify (reportToJson g)) :
    runGapNormalisation (Json.stringify (reportToJson g)) = g
    ∧ normaliseGapAnalysis (reportToJsonO g (Json.stringify (reportToJson g))) = g := by
  constructor
  · have hc := cascade_of_parse_obj (Json.stringify (reportToJson g)) _ hstrip hparse
    rw [runGapNormalisation, hc]
    exact normalise_reportToJson g hwf
  · exact normalise_double_encoded g hwf hparse htrimS

/-- A fully-populated concrete report for the C4 witness. -/
def c4DemoReport : GapReport where
  overallSummary := "Strong analytics profile with a consulting gap"
  trajectoryFit := "Moderate fit based on 20 target profiles"
  careerAnchors := ["87% pedigree", "60% strategy internships"]
  skillGaps :=
    { missingTechnical :=
        [⟨"SQL", some "https://www.coursera.org/sql"⟩, ⟨"Power BI", none⟩]
      missingSoft := ["Stakeholder communication"] }
  concreteActions := ["Complete the Google Data Analytics certificate"]

set_option maxRecDepth 8192 in
set_option maxHeartbeats 1000000 in
/-- Witness for C4 at the concrete report. -/
theorem c4_report_roundtrip_witness :
    runGapNormalisation (Json.stringify (reportToJson c4DemoReport)) = c4DemoReport
    ∧ normaliseGapAnalysis
        (reportToJsonO c4DemoReport (Json.stringify (reportToJson c4DemoReport)))
      = c4DemoReport :=
  c4_report_roundtrip c4DemoReport (by decide) (by rfl) (by rfl) (by rfl)

/-! ## Trim idempotence -/

lemma dropWhile_dropWhile (p : Char → Bool) (l : List Char) :
    (l.dropWhile p).dropWhile p = l.dropWhile p := by
  induction l with
  | nil => simp
  | cons c rest ih =>
    by_cases h : p c
    · simp [List.dropWhile_cons, h, ih]
    · simp [List.dropWhile_cons, h]

lemma head?_dropWhile (p : Char → Bool) (l : List Char) :
    ∀ c, (l.dropWhile p).head? = some c → p c = false := by
  induction l with
  | nil => intro c h; simp at h
  | cons x rest ih =>
    intro c h
    by_cases hx : p x
    · rw [List.dropWhile_cons, if_pos hx] at h
      exact ih c h
    · rw [List.dropWhile_cons, if_neg hx] at h
      simp only [List.head?_cons, Option.some.injEq] at h
      subst h
      exact Bool.eq_false_iff.mpr hx

lemma getLast?_dropWhile (p : Char → Bool) (l : List Char)
    (h : l.dropWhile p ≠ []) : (l.dropWhile p).getLast? = l.getLast? := by
  induction l with
  | nil => simp at h
  | cons x rest ih =>
    by_cases hx : p x
    · rw [List.dropWhile_cons, if_pos hx] at h ⊢
      have hrest : rest ≠ [] := by
        intro he; subst he; simp at h
      rw [ih h, List.getLast?_cons]
      match rest, hrest with
      | y :: ys, _ => simp [List.getLast?_cons]
    · rw [List.dropWhile_cons, if_neg hx]

lemma dropWhile_eq_self_of_head (p : Char → Bool) (l : List Char)
    (h : ∀ c, l.head? = some c → p c = false) : l.dropWhile p = l := by
  match l with
  | [] => simp
  | c :: rest =>
    have := h c (by simp)
    simp [List.dropWhile_cons, this]

lemma jsTrimL_idem (l : List Char) : jsTrimL (jsTrimL l) = jsTrimL l := by
  set p := Char.isWhitespace
  set A := l.dropWhile p with hA
  set C := A.reverse.dropWhile p with hC
  show jsTrimL C.reverse = C.reverse
  have h1 : C.reverse.dropWhile p = C.reverse := by
    apply dropWhile_eq_self_of_head
    intro c hc
    rw [List.head?_reverse] at hc
    by_cases hCnil : C = []
    · rw [hCnil] at hc; simp at hc
    · have hlast : C.getLast? = A.reverse.getLast? := getLast?_dropWhile p A.reverse hCnil
      rw [hlast] at hc
      rw [List.getLast?_reverse] at hc
      exact head?_dropWhile p l c (hA ▸ hc)
  unfold jsTrimL
  rw [h1, List.reverse_reverse, hC, dropWhile_dropWhile]

lemma jsTrim_idem (s : String) : jsTrim (jsTrim s) = jsTrim s := by
  simp [jsTrim, jsTrimL_idem]

/-! ## `mapFiberProfile` (part_009 lines 321-410) -/

/-- JS `a || b || c || ...` over candidate property reads: the first truthy
value, `none` when all are falsy or undefined. -/
def jsOrChain : List (Option Json) → Option Json
  | [] => none
  | c :: rest =>
    match c with
    | some v => if jsTruthy v then some v else jsOrChain rest
    | none => jsOrChain rest

/-- First truthy candidate as a string with a default.  Non-string truthy
values are rendered via `jsToString`; this coercion is a typing device only —
under `WellShapedRaw` every candidate is a string or falsy, matching the JS
code, which simply keeps the value. -/
def pickStr (cands : List (Option Json)) (dflt : String) : String :=
  match jsOrChain cands with
  | some (.str s) => s
  | some v => jsToString v
  | none => dflt

/-- First truthy candidate as an optional string (`... || null` chains). -/
def pickStrOpt (cands : List (Option Json)) : Option String :=
  match jsOrChain cands with
  | some (.str s) => some s
  | some v => some (jsToString v)
  | none => none

/-- `exp.title || exp.role || exp.position || ""`. -/
def expTitle (exp : Json) : String :=
  pickStr [jsGet exp "title", jsGet exp "role", jsGet exp "position"] ""

/-- The `company` extraction branch chain of `mapFiberProfile`. -/
def expCompany (exp : Json) : String :=
  match jsGet exp "company" with
  | some (.obj kvs) =>
    pickStr [jsGet (.obj kvs) "name", jsGet exp "company_title"] ""
  | some (.arr l) =>
    pickStr [jsGet (.arr l) "name", jsGet exp "company_title"] ""
  | some (.str s) => s
  | _ => pickStr [jsGet exp "employer_name"] ""

/-- The experience loop: entries whose mapped title and company are both
falsy are skipped (`continue`). -/
def mapExperiences (exps : List Json) : List ExperienceEntry :=
  exps.filterMap fun exp =>
    let title := expTitle exp
    let company := expCompany exp
    if title = "" ∧ company = "" then none
    else some
      { title := title, company := company
        start_date := pickStrOpt
          [jsGet exp "start_date", jsGet exp "starts_at", jsGet exp "start_date_iso"]
        end_date := pickStrOpt
          [jsGet exp "end_date", jsGet exp "ends_at", jsGet exp "end_date_iso"]
        description := pickStrOpt
          [jsGet exp "description", jsGet exp "summary", jsGet exp "responsibilities"] }

/-- `s.split(sep)` for a separator character class, keeping empty fragments. -/
def splitOnPred (p : Char → Bool) (cur : List Char) : List Char → List (List Char)
  | [] => [cur.reverse]
  | c :: rest =>
    if p c then cur.reverse :: splitOnPred p [] rest
    else splitOnPred p (c :: cur) rest

/-- Skills extraction: a string splits on `[,;\n]`, an array maps
`String(s).trim()`; both filter out falsy entries.  A non-array, non-string
truthy value would make the JS `.map` call throw; `WellShapedRaw` excludes
that shape and the model returns `[]` there. -/
def mapSkills (raw : Json) : List String :=
  match jsOrChain [jsGet raw "skills", jsGet raw "skill_tags"] with
  | some (.str s) =>
    ((splitOnPred (fun c => c = ',' || c = ';' || c = '\n') [] s.data).map
      fun l => jsTrim ⟨l⟩).filter (· ≠ "")
  | some (.arr l) => (l.map fun s => jsTrim (jsToString s)).filter (· ≠ "")
  | some _ => []
  | none => []

/-- `ed.school || ed.school_name || ed.degree || ""`. -/
def eduName (ed : Json) : String :=
  pickStr [jsGet ed "school", jsGet ed "school_name", jsGet ed "degree"] ""

/-- Education extraction: string entries are pushed verbatim (even empty or
untrimmed); object-typed entries contribute their truthy name; other entries
are skipped.  A non-array truthy collection would be iterated chararacter-wise
or throw in JS; `WellShapedRaw` excludes it and the model returns `[]`. -/
def mapEducation (raw : Json) : List String :=
  match jsOrChain [jsGet raw "education", jsGet raw "education_history"] with
  | some (.arr l) =>
    l.filterMap fun ed =>
      match ed with
      | .str s => some s
      | .obj kvs =>
        let name := eduName (.obj kvs)
        if name ≠ "" then some name else none
      | .arr l2 =>
        let name := eduName (.arr l2)
        if name ≠ "" then some name else none
      | _ => none
  | _ => []

/-- `mapFiberProfile` from part_009. -/
def mapFiberProfile (raw : Json) : SuccessProfile :=
  let full_name :=
    pickStr [jsGet raw "full_name", jsGet raw "name", jsGet raw "display_name"] "Unknown"
  let headline :=
    pickStr [jsGet raw "headline", jsGet raw "current_title", jsGet raw "current_position"] ""
  let experience_history := mapExperiences
    (match jsOrChain
        [jsGet raw "experience", jsGet raw "experiences", jsGet raw "employment_history"] with
      | some (.arr l) => l
      | _ => [])
  { full_name := full_name
    current_occupation :=
      if headline ≠ "" then headline
      else
        match experience_history with
        | e :: _ => e.title
        | [] => "Unknown"
    experience_history := experience_history
    skills := mapSkills raw
    education := mapEducation raw }

/-- A value that is a string, or falsy (so a `||` chain skips it). -/
def isStrOrFalsy : Option Json → Bool
  | none => true
  | some (.str _) => true
  | some v => !jsTruthy v

def wellShapedExp (exp : Json) : Bool :=
  isStrOrFalsy (jsGet exp "title") && isStrOrFalsy (jsGet exp "role") &&
  isStrOrFalsy (jsGet exp "position") &&
  (match jsGet exp "company" with
    | none => true
    | some .null => true
    | some (.str _) => true
    | some (.obj kvs) =>
      isStrOrFalsy (jsGet (.obj kvs) "name") && isStrOrFalsy (jsGet exp "company_title")
    | some _ => false) &&
  isStrOrFalsy (jsGet exp "employer_name")

def wellShapedEdu (ed : Json) : Bool :=
  match ed with
  | .str _ => true
  | .obj kvs =>
    isStrOrFalsy (jsGet (.obj kvs) "school") && isStrOrFalsy (jsGet (.obj kvs) "school_name") &&
      isStrOrFalsy (jsGet (.obj kvs) "degree")
  | .arr _ => false
  | _ => true

def arrOrFalsy (v : Option Json) (each : Json → Bool) : Bool :=
  match v with
  | none => true
  | some (.arr l) => l.all each
  | some v => !jsTruthy v

/-- The raw-record shapes on which the JS `mapFiberProfile` neither throws
nor stores non-string values into string-typed fields: the name-like scalar
fields are strings or falsy and the three collections are arrays (or falsy),
with well-shaped elements.  The Lean model is exactly faithful on this
domain. -/
def WellShapedRaw (raw : Json) : Bool :=
  isStrOrFalsy (jsGet raw "full_name") && isStrOrFalsy (jsGet raw "name") &&
  isStrOrFalsy (jsGet raw "display_name") &&
  isStrOrFalsy (jsGet raw "headline") && isStrOrFalsy (jsGet raw "current_title") &&
  isStrOrFalsy (jsGet raw "current_position") &&
  arrOrFalsy (jsOrChain
    [jsGet raw "experience", jsGet raw "experiences", jsGet raw "employment_history"])
    wellShapedExp &&
  (match jsOrChain [jsGet raw "skills", jsGet raw "skill_tags"] with
    | none => true
    | some (.arr _) => true
    | some (.str _) => true
    | some v => !jsTruthy v) &&
  arrOrFalsy (jsOrChain [jsGet raw "education", jsGet raw "education_history"]) wellShapedEdu

/-! ## Claim C10: the Profile Normalizer -/

lemma pickStr_ne_empty (cands : List (Option Json)) (dflt : String)
    (hc : ∀ c ∈ cands, isStrOrFalsy c = true) (hd : dflt ≠ "") :
    pickStr cands dflt ≠ "" := by
  induction cands with
  | nil => simpa [pickStr, jsOrChain] using hd
  | cons c rest ih =>
    have hch := hc c (List.mem_cons_self c rest)
    have hr := ih fun x hx => hc x (List.mem_cons_of_mem _ hx)
    match c with
    | none => simpa [pickStr, jsOrChain] using hr
    | some (.str s) =>
      by_cases hs : s = ""
      · subst hs
        simpa [pickStr, jsOrChain, jsTruthy] using hr
      · simp [pickStr, jsOrChain, jsTruthy, hs]
    | some .null => simpa [pickStr, jsOrChain, jsTruthy] using hr
    | some (.bool b) =>
      cases b
      · simpa [pickStr, jsOrChain, jsTruthy] using hr
      · simp [isStrOrFalsy, jsTruthy] at hch
    | some (.num q) =>
      by_cases hq : q = 0
      · subst hq
        simpa [pickStr, jsOrChain, jsTruthy] using hr
      · simp [isStrOrFalsy, jsTruthy, hq] at hch
    | some (.arr l) => simp [isStrOrFalsy, jsTruthy] at hch
    | some (.obj kvs) => simp [isStrOrFalsy, jsTruthy] at hch

/-- C10 (amended): on well-shaped raw records, every emitted experience
entry has a non-empty title or company (both-empty entries are dropped), the
skills are non-empty trimmed strings, and `full_name` is never empty (it
defaults to `"Unknown"`).  Education entries do NOT share the skills
guarantee: string elements are pushed verbatim (see the counterexample). -/
theorem c10_profile_normalizer (raw : Json) (hws : WellShapedRaw raw = true) :
    (∀ e ∈ (mapFiberProfile raw).experience_history, e.title ≠ "" ∨ e.company ≠ "")
    ∧ (∀ s ∈ (mapFiberProfile raw).skills, jsTrim s = s ∧ s ≠ "")
    ∧ (mapFiberProfile raw).full_name ≠ "" := by
  simp only [WellShapedRaw, Bool.and_eq_true] at hws
  obtain ⟨⟨⟨⟨⟨⟨⟨⟨h1, h2⟩, h3⟩, h4⟩, h5⟩, h6⟩, _⟩, _⟩, _⟩ := hws
  refine ⟨?_, ?_, ?_⟩
  · intro e he
    simp only [mapFiberProfile] at he
    unfold mapExperiences at he
    rcases List.mem_filterMap.mp he with ⟨exp, _, hf⟩
    simp only at hf
    by_cases hcond : expTitle exp = "" ∧ expCompany exp = ""
    · simp [hcond] at hf
    · rw [if_neg hcond] at hf
      rcases not_and_or.mp hcond with h | h
      · cases hf
        exact Or.inl h
      · cases hf
        exact Or.inr h
  · intro s hs
    simp only [mapFiberProfile] at hs
    unfold mapSkills at hs
    rcases hch : jsOrChain [jsGet raw "skills", jsGet raw "skill_tags"] with _ | v
    · rw [hch] at hs; simp at hs
    · rw [hch] at hs
      match v with
      | .str s0 =>
        rcases List.mem_filter.mp hs with ⟨hmem, hne⟩
        rcases List.mem_map.mp hmem with ⟨x, _, rfl⟩
        exact ⟨jsTrim_idem _, by simpa using hne⟩
      | .arr l =>
        rcases List.mem_filter.mp hs with ⟨hmem, hne⟩
        rcases List.mem_map.mp hmem with ⟨x, _, rfl⟩
        exact ⟨jsTrim_idem _, by simpa using hne⟩
      | .null => simp at hs
      | .bool b => simp at hs
      | .num q => simp at hs
      | .obj kvs => simp at hs
  · have hfn : ∀ c ∈ [jsGet raw "full_name", jsGet raw "name", jsGet raw "display_name"],
        isStrOrFalsy c = true := by
      intro c hcm
      simp only [List.mem_cons, List.not_mem_nil, or_false] at hcm
      rcases hcm with rfl | rfl | rfl
      · exact h1
      · exact h2
      · exact h3
    have := pickStr_ne_empty _ "Unknown" hfn (by decide)
    simpa [mapFiberProfile] using this

/-- A well-shaped concrete raw record for the C10 witness. -/
def c10DemoRaw : Json :=
  Json.obj [("full_name", .str "Alice"), ("skills", .arr [.str " SQL "]),
    ("experience", .arr [Json.obj [("title", .str "CEO"), ("company", .str "Acme")]]),
    ("education", .arr [.str "MIT"])]

/-- Witness for C10 at the concrete raw record. -/
theorem c10_profile_normalizer_witness :
    (mapFiberProfile c10DemoRaw).full_name ≠ ""
    ∧ (∀ s ∈ (mapFiberProfile c10DemoRaw).skills, jsTrim s = s ∧ s ≠ "")
    ∧ (∀ e ∈ (mapFiberProfile c10DemoRaw).experience_history,
        e.title ≠ "" ∨ e.company ≠ "") := by
  obtain ⟨h1, h2, h3⟩ := c10_profile_normalizer c10DemoRaw (by decide)
  exact ⟨h3, h2, h1⟩

/-- A well-shaped raw record whose education array contains an empty string
and an untrimmed string. -/
def c10CexRaw : Json := Json.obj [("education", Json.arr [Json.str "", Json.str " MIT "])]

/-- C10 counterexample: emitted education sequences are NOT restricted to
non-empty trimmed strings — the string elements of the raw education array
are pushed verbatim, empty or untrimmed as they come. -/
theorem c10_counterexample :
    WellShapedRaw c10CexRaw = true
    ∧ (mapFiberProfile c10CexRaw).education = ["", " MIT "]
    ∧ ¬ (∀ s ∈ (mapFiberProfile c10CexRaw).education, jsTrim s = s ∧ s ≠ "") := by
  refine ⟨by decide, by decide, ?_⟩
  intro h
  exact (h "" (by decide)).2 rfl

/-! ## Claim C5: the discovery cache -/

structure DiscoveryResult where
  profiles : List SuccessProfile
  pattern : SuccessPattern
deriving DecidableEq

/-- The gap phase of the discovery POST handler (part_009 lines 604-686),
state-explicit: the module-level `cache` map is threaded as state and
`rawResults` stands for the upstream people-search response.  The handler
computes `key` (lowercased "company::role") but never reads or writes
`cache`. -/
def processDiscoveryGap (cache : List (String × DiscoveryResult))
    (pd : String → Option ℚ) (now : ℚ) (rawResults : List Json)
    (targetRole targetCompany : String) :
    List (String × DiscoveryResult) × DiscoveryResult :=
  let _key := jsLower (targetCompany ++ "::" ++ targetRole)
  let profiles := rawResults.map mapFiberProfile
  let pattern := deriveSuccessPattern pd now profiles targetRole targetCompany
  (cache, { profiles := profiles, pattern := pattern })

/-- C5 (amended): the process-wide cache map is declared and the lowercased
"company::role" key is computed, but the cache is never read or written —
the handler leaves the cache exactly as it was and its response is
independent of the cache contents, so every request recomputes
`{profiles, pattern}` from the fresh upstream results. -/
theorem c5_cache_never_used (cache cache' : List (String × DiscoveryResult))
    (pd : String → Option ℚ) (now : ℚ) (raws : List Json) (r c : String) :
    (processDiscoveryGap cache pd now raws r c).1 = cache
    ∧ (processDiscoveryGap cache pd now raws r c).2 =
        (processDiscoveryGap cache' pd now raws r c).2 :=
  ⟨rfl, rfl⟩

def c5Raw1 : Json := Json.obj [("full_name", Json.str "Alice")]

def c5Raw2 : Json := Json.obj [("full_name", Json.str "Bob")]

/-- The `{profiles, pattern}` pair computed by a first request for the key
"acme::analyst". -/
def c5FirstResult : DiscoveryResult :=
  (processDiscoveryGap [] (fun _ => none) 0 [c5Raw1] "analyst" "acme").2

/-- A cache state in which the pair for "acme::analyst" has been stored. -/
def c5Cache : List (String × DiscoveryResult) := [("acme::analyst", c5FirstResult)]

/-- C5 counterexample: a later request with the same key is NOT served the
cached pair — with the pair for "acme::analyst" in the cache, a second
request for the same key returns freshly recomputed profiles that differ from
the cached ones, and the cache is left untouched (never populated by the
handler either). -/
theorem c5_counterexample :
    (processDiscoveryGap c5Cache (fun _ => none) 0 [c5Raw2] "analyst" "acme").1 = c5Cache
    ∧ (processDiscoveryGap c5Cache (fun _ => none) 0 [c5Raw2] "analyst" "acme").2.profiles
        ≠ c5FirstResult.profiles :=
  ⟨rfl, by decide⟩

/-! ## Claim C9: the CV-parsing retry -/

/-- `isRateLimit` from part_006:
`msg.includes("429") || msg.toLowerCase().includes("rate limit")`. -/
def isRateLimit (msg : String) : Bool :=
  jsIncludes msg "429" || jsIncludes (jsLower msg) "rate limit"

structure RetryTrace (α : Type) where
  attempts : Nat
  delaysMs : List Nat
  outcome : Except String α

/-- The retry control flow of `parsePdfWithAI` (part_006 lines 125-143):
`callOpenAI()` in a `try`; on a rate-limit failure wait 3000 ms and call
once more (that second failure propagates); any other failure propagates
immediately.  `first`/`second` are the outcomes the upstream boundary would
return for the first and second call. -/
def parsePdfWithAIRetry {α : Type} (first second : Except String α) : RetryTrace α :=
  match first with
  | .ok c => ⟨1, [], .ok c⟩
  | .error e =>
    if isRateLimit e then ⟨2, [3000], second⟩
    else ⟨1, [], .error e⟩

/-- C9: at most two upstream calls ever happen; a first success means one
call and no delay; a rate-limited first call is retried exactly once after a
fixed 3000 ms delay with the second outcome surfaced as-is (success or
failure); a non-rate-limit failure is surfaced immediately with no retry and
no delay. -/
theorem c9_retry {α : Type} (first second : Except String α) :
    (parsePdfWithAIRetry first second).attempts ≤ 2
    ∧ (∀ c, first = .ok c → parsePdfWithAIRetry first second = ⟨1, [], .ok c⟩)
    ∧ (∀ e, first = .error e → isRateLimit e = true →
        parsePdfWithAIRetry first second = ⟨2, [3000], second⟩)
    ∧ (∀ e, first = .error e → isRateLimit e = false →
        parsePdfWithAIRetry first second = ⟨1, [], .error e⟩) := by
  refine ⟨?_, ?_, ?_, ?_⟩
  · match first with
    | .ok c => exact Nat.le_of_lt (by simp [parsePdfWithAIRetry])
    | .error e =>
      unfold parsePdfWithAIRetry
      by_cases h : isRateLimit e = true
      · simp [h]
      · simp [h]
  · intro c hc
    subst hc
    rfl
  · intro e he hrl
    subst he
    simp [parsePdfWithAIRetry, hrl]
  · intro e he hrl
    subst he
    simp [parsePdfWithAIRetry, hrl]

/-- Witness for C9 at concrete outcomes. -/
theorem c9_retry_witness :
    parsePdfWithAIRetry (Except.error "429 too many requests") (Except.ok ()) =
      ⟨2, [3000], Except.ok ()⟩
    ∧ parsePdfWithAIRetry (Except.error "invalid api key") (Except.ok ()) =
      ⟨1, [], Except.error "invalid api key"⟩
    ∧ parsePdfWithAIRetry (Except.ok ()) (Except.error "x") = ⟨1, [], Except.ok ()⟩ :=
  ⟨(c9_retry _ _).2.2.1 _ rfl (by decide),
   (c9_retry _ _).2.2.2 _ rfl (by decide),
   (c9_retry _ _).2.1 _ rfl⟩

/-! ## The Report Renderer (part_008 lines 1-542)

The layout state of the benchmark-report POST handler: the current page
count, the running vertical cursor, and the record of drawn text blocks
(kind, page, baseline y).  Rectangles (background, bars, checkboxes) are not
text blocks and are not recorded.  `W` models the external
`font.widthOfTextAtSize(text, size)` metric. -/

inductive OpKind where
  | title
  | meta
  | sectionTitle
  | paragraph
  | bullet
  | barLabel
  | anchorPct
  | anchorName
  | checklist
deriving DecidableEq

structure ROp where
  kind : OpKind
  page : Nat
  y : ℚ
deriving DecidableEq

structure RState where
  pageCount : Nat
  cursorY : ℚ
  ops : List ROp

def pageH : ℚ := 841.89

def pageW : ℚ := 595.28

def bottomMargin : ℚ := 70

def topReset : ℚ := pageH - 60

def contentMaxWidth : ℚ := pageW - 40 * 2

def cardWidth : ℚ := (contentMaxWidth - 20) / 3

/-- `text.split(/\s+/)` as strings. -/
def splitWsStr (s : String) : List String :=
  (splitWsGo false [] s.data).map fun l => ⟨l⟩

/-- The greedy word-wrap loop of `wrapText`. -/
def wrapLoop (W : String → ℚ → ℚ) (size maxW : ℚ) :
    List String → String → List String → List String
  | [], current, lines => if current ≠ "" then lines ++ [current] else lines
  | w :: ws, current, lines =>
    let tentative := if current ≠ "" then current ++ " " ++ w else w
    if W tentative size ≤ maxW then wrapLoop W size maxW ws tentative lines
    else if current ≠ "" then wrapLoop W size maxW ws w (lines ++ [current])
    else wrapLoop W size maxW ws w lines

/-- `wrapText` from part_008. -/
def wrapText (W : String → ℚ → ℚ) (text : String) (size maxW : ℚ) : List String :=
  wrapLoop W size maxW (splitWsStr text) "" []

/-- `ensureSpace` from part_008: when the cursor would cross the bottom
margin, add a page (with its background) and reset the cursor to the top. -/
def ensureSpace (needed : ℚ) (st : RState) : RState :=
  if st.cursorY - needed < bottomMargin then
    { pageCount := st.pageCount + 1, cursorY := topReset, ops := st.ops }
  else st

/-- Record a drawn text block on the current page. -/
def emit (k : OpKind) (y : ℚ) (st : RState) : RState :=
  { st with ops := st.ops ++ [⟨k, st.pageCount, y⟩] }

def decY (d : ℚ) (st : RState) : RState := { st with cursorY := st.cursorY - d }

/-- `drawSectionTitle` (the title string itself does not affect layout). -/
def drawSectionTitle (st : RState) : RState :=
  let st := decY 20 st
  let st := ensureSpace 36 st
  let st := emit .sectionTitle st.cursorY st
  decY 22 st

/-- One wrapped line drawn with a per-line `ensureSpace`. -/
def drawLineStep (k : OpKind) (needed drop : ℚ) (st : RState) : RState :=
  let st := ensureSpace needed st
  let st := emit k st.cursorY st
  decY drop st

/-- `drawParagraph`. -/
def drawParagraph (W : String → ℚ → ℚ) (text : String) (st : RState) : RState :=
  if text = "" then st
  else
    let lines := wrapText W text 10 contentMaxWidth
    let st := lines.foldl (fun st _ => drawLineStep .paragraph 15 14 st) st
    decY 8 st

/-- `drawBullets`. -/
def drawBullets (W : String → ℚ → ℚ) (items : List String) (st : RState) : RState :=
  if items = [] then st
  else
    let st := items.foldl
      (fun st item =>
        let lines := wrapText W item 10 (contentMaxWidth - 14)
        let st := lines.foldl (fun st _ => drawLineStep .bullet 15 14 st) st
        decY 10 st) st
    decY 6 st

/-- The `metaParts` list (`if (targetRole) metaParts.push(...)` etc.). -/
def metaParts (targetRole targetCompany targetIndustry : Option String) : List String :=
  (match targetRole with
    | some r => if r ≠ "" then ["Target role: " ++ r] else []
    | none => []) ++
  (match targetCompany with
    | some r => if r ≠ "" then ["Target company: " ++ r] else []
    | none => []) ++
  (match targetIndustry with
    | some r => if r ≠ "" then ["Industry: " ++ r] else []
    | none => [])

/-- The metadata block. -/
def drawMeta (W : String → ℚ → ℚ) (mp : List String) (st : RState) : RState :=
  if mp = [] then st
  else
    let meta := String.intercalate " | " mp
    let lines := wrapText W meta 10 contentMaxWidth
    let st := lines.foldl (fun st _ => drawLineStep .meta 14 12 st) st
    decY 8 st

/-- `safeSectionText` from part_008 (on the string-typed report fields). -/
def safeSectionText (value : String) : String :=
  let s := jsTrim value
  if s = "" then ""
  else if jsStartsWith s "\x7b" = true
      ∧ (jsIncludes s "overallSummary" = true ∨ jsIncludes s "trajectoryFit" = true) then
    match Json.parse s with
    | some parsed =>
      match
        (match jsGet parsed "overallSummary" with
          | none => jsGet parsed "trajectoryFit"
          | some .null => jsGet parsed "trajectoryFit"
          | some v => some v) with
      | some (.str t) => jsTrim t
      | _ => ""
    | none => ""
  else s

/-- `safeStringArray` on a string-array field: `.filter(Boolean)`. -/
def safeStringArray (value : List String) : List String := value.filter (· ≠ "")

/-- `safeSkillGaps` on the typed field. -/
def safeSkillGaps (sg : SkillGapsR) : SkillGapsR where
  missingTechnical := sg.missingTechnical.filter (·.name ≠ "")
  missingSoft := safeStringArray sg.missingSoft

structure ParsedCareerAnchor where
  name : String
  value : Nat
  raw : String
deriving DecidableEq

/-- The leftmost match of `/(\d+)\s*%/`: the matched text and the parsed
percentage (regex backtracking cannot shorten a digit run usefully, so the
match at a position is the maximal digit run, optional whitespace, `%`). -/
def findPctMatch : List Char → Option (List Char × Nat)
  | [] => none
  | c :: rest =>
    if c.isDigit then
      let run := (c :: rest).takeWhile Char.isDigit
      let after := (c :: rest).dropWhile Char.isDigit
      let ws := after.takeWhile Char.isWhitespace
      let after2 := after.dropWhile Char.isWhitespace
      match after2 with
      | '%' :: _ => some (run ++ ws ++ ['%'], digitsToNat run)
      | _ => findPctMatch rest
    else findPctMatch rest

/-- JS `s.replace(pat, "")` for a literal pattern: remove the first
occurrence (an empty pattern matches at position 0, leaving `s` unchanged). -/
def replaceFirstL (pat : List Char) : List Char → List Char
  | [] => []
  | c :: rest =>
    if pat.isPrefixOf (c :: rest) then List.drop pat.length (c :: rest)
    else c :: replaceFirstL pat rest

/-- `parseCareerAnchors` from part_008. -/
def parseCareerAnchors (rawAnchors : List String) : List ParsedCareerAnchor :=
  rawAnchors.mapIdx fun idx anchor =>
    let m := findPctMatch anchor.data
    let value : Nat := match m with | some p => p.2 | none => 50
    let matched : List Char := match m with | some p => p.1 | none => []
    let label := jsTrim ⟨replaceFirstL matched anchor.data⟩
    { name := if label ≠ "" then label else "Anchor " ++ Nat.repr (idx + 1)
      value := min 100 value
      raw := anchor }

/-- One career-anchor card: the percentage label at `rowTopY - 32` and the
wrapped name lines from `rowTopY - 66` stepping 11 down, with a page check
only at the start of each row of three. -/
def drawAnchorCard (W : String → ℚ → ℚ) (acc : RState × Nat × ℚ)
    (anchor : ParsedCareerAnchor) : RState × Nat × ℚ :=
  let st := acc.1
  let col := acc.2.1
  let rowTopY := acc.2.2
  let st1 := if col = 0 then ensureSpace (120 + 20) st else st
  let rowTopY := if col = 0 then st1.cursorY else rowTopY
  let st2 := emit .anchorPct (rowTopY - 32) st1
  let nameLines := wrapText W anchor.name 9 (cardWidth - 24)
  let st3 :=
    (nameLines.foldl (fun (p : RState × ℚ) _ => (emit .anchorName p.2 p.1, p.2 - 11))
      (st2, rowTopY - 66)).1
  if col + 1 ≥ 3 then ({ st3 with cursorY := rowTopY - 120 - 24 }, 0, rowTopY)
  else (st3, col + 1, rowTopY)

/-- The career-anchors section. -/
def drawAnchors (W : String → ℚ → ℚ) (anchorsList : List String) (st : RState) : RState :=
  if anchorsList = [] then st
  else
    let st := drawSectionTitle st
    let anchors := parseCareerAnchors anchorsList
    let acc := anchors.foldl (drawAnchorCard W) (st, 0, st.cursorY)
    let st := if acc.2.1 ≠ 0 then { acc.1 with cursorY := acc.2.2 - 120 - 24 } else acc.1
    decY 8 st

/-- The trajectory-fit section: the `${score}% fit` label sits at
`cursorY - 8 + 10`; the fit bars are rectangles, not text. -/
def drawTrajectory (W : String → ℚ → ℚ) (trajectoryFit : String) (st : RState) : RState :=
  let st := drawSectionTitle st
  let t := safeSectionText trajectoryFit
  if t = "" then st
  else
    let st := ensureSpace 30 st
    let st := emit .barLabel (st.cursorY - 8 + 10) st
    let st := decY 28 st
    let st := drawParagraph W t st
    decY 6 st

/-- The skill-gaps section. -/
def drawSkills (W : String → ℚ → ℚ) (sg : SkillGapsR) (st : RState) : RState :=
  let s := safeSkillGaps sg
  if s.missingTechnical = [] ∧ s.missingSoft = [] then st
  else
    let st := drawSectionTitle st
    let st :=
      if s.missingTechnical ≠ [] then
        let st := drawParagraph W "Technical skills (with suggested resources):" st
        let st := decY 4 st
        let techItems := s.missingTechnical.map fun t =>
          match t.resourceUrl with
          | some u => t.name ++ " — " ++ u
          | none => t.name
        let st := drawBullets W techItems st
        decY 6 st
      else st
    if s.missingSoft ≠ [] then
      let st := drawParagraph W "Soft skills:" st
      let st := decY 4 st
      drawBullets W s.missingSoft st
    else st

/-- One checklist item of the concrete-actions section: a single page check
for the whole item, then the wrapped lines from the cursor stepping 14 down,
finishing 12 below the last line. -/
def drawChecklistItem (W : String → ℚ → ℚ) (st : RState) (item : String) : RState :=
  let lines := wrapText W item 10 (contentMaxWidth - 16)
  let st := ensureSpace (16 * (lines.length : ℚ) + 14) st
  let p := lines.foldl (fun (p : RState × ℚ) _ => (emit .checklist p.2 p.1, p.2 - 14))
    (st, st.cursorY)
  { p.1 with cursorY := p.2 - 12 }

/-- The concrete-actions section. -/
def drawActions (W : String → ℚ → ℚ) (actions : List String) (st : RState) : RState :=
  let items := safeStringArray actions
  if items = [] then st
  else
    let st := drawSectionTitle st
    items.foldl (drawChecklistItem W) st

/-- The full report layout of the benchmark-report POST handler: fixed
title, optional metadata, then the five sections sharing the cursor and the
page-overflow logic. -/
def renderReport (W : String → ℚ → ℚ) (g : GapReport)
    (targetRole targetCompany targetIndustry : Option String) : RState :=
  let st : RState := { pageCount := 1, cursorY := pageH - 110, ops := [⟨.title, 1, pageH - 80⟩] }
  let st := drawMeta W (metaParts targetRole targetCompany targetIndustry) st
  let st := drawSectionTitle st
  let st := drawParagraph W (safeSectionText g.overallSummary) st
  let st := drawTrajectory W g.trajectoryFit st
  let st := drawAnchors W (safeStringArray g.careerAnchors) st
  let st := drawSkills W g.skillGaps st
  drawActions W g.concreteActions st

lemma ensureSpace_cases (n : ℚ) (st : RState) :
    (ensureSpace n st = st ∧ bottomMargin ≤ st.cursorY - n)
    ∨ (ensureSpace n st
        = { pageCount := st.pageCount + 1, cursorY := topReset, ops := st.ops }
      ∧ st.cursorY - n < bottomMargin) := by
  unfold ensureSpace
  by_cases h : st.cursorY - n < bottomMargin
  · right; exact ⟨if_pos h, h⟩
  · left; exact ⟨if_neg h, le_of_not_lt h⟩

lemma ensureSpace_ops (n : ℚ) (st : RState) : (ensureSpace n st).ops = st.ops := by
  rcases ensureSpace_cases n st with ⟨h, _⟩ | ⟨h, _⟩ <;> rw [h]

lemma ensureSpace_pc (n : ℚ) (st : RState) :
    st.pageCount ≤ (ensureSpace n st).pageCount := by
  rcases ensureSpace_cases n st with ⟨h, _⟩ | ⟨h, _⟩ <;> rw [h] <;> simp

lemma ensureSpace_cursor_ge (n : ℚ) (st : RState) (h0 : 0 ≤ n)
    (hb : n ≤ topReset - bottomMargin) :
    bottomMargin + n ≤ (ensureSpace n st).cursorY := by
  rcases ensureSpace_cases n st with ⟨h, hc⟩ | ⟨h, _⟩ <;> rw [h]
  · simpa using by linarith
  · simpa using by linarith

lemma ensureSpace_cursor_le (n : ℚ) (st : RState) (h : st.cursorY ≤ topReset) :
    (ensureSpace n st).cursorY ≤ topReset := by
  rcases ensureSpace_cases n st with ⟨he, _⟩ | ⟨he, _⟩
  · rw [he]; exact h
  · simp [he]

lemma ensureSpace_nofire (n : ℚ) (st : RState)
    (h : (ensureSpace n st).pageCount = st.pageCount) :
    ensureSpace n st = st ∧ bottomMargin ≤ st.cursorY - n := by
  rcases ensureSpace_cases n st with ⟨he, hc⟩ | ⟨he, _⟩
  · exact ⟨he, hc⟩
  · rw [he] at h; simp at h

/-- The per-line emit loop shared by the checklist items and the anchor-card
names: final running y, unchanged page and cursor, appended ops with their y
range, and membership of the lowest line. -/
lemma emitFold_spec (k : OpKind) (d : ℚ) (hd : 0 ≤ d) :
    ∀ (l : List String) (st : RState) (y0 : ℚ) (p : RState × ℚ),
      p = l.foldl (fun (q : RState × ℚ) _ => (emit k q.2 q.1, q.2 - d)) (st, y0) →
      p.2 = y0 - d * l.length ∧ p.1.pageCount = st.pageCount
      ∧ p.1.cursorY = st.cursorY
      ∧ ∃ new, p.1.ops = st.ops ++ new
          ∧ (∀ op ∈ new, op.kind = k ∧ y0 - d * l.length + d ≤ op.y ∧ op.y ≤ y0)
          ∧ (l ≠ [] → ROp.mk k st.pageCount (y0 - d * l.length + d) ∈ new) := by
  intro l
  induction l with
  | nil =>
    intro st y0 p hp
    subst hp
    refine ⟨by simp, rfl, rfl, [], by simp, by simp, by simp⟩
  | cons x xs ih =>
    intro st y0 p hp
    rw [List.foldl_cons] at hp
    obtain ⟨h2, hpc, hcur, new', hops, hbound, hmem⟩ :=
      ih (emit k y0 st) (y0 - d) p hp
    have hlen : ((x :: xs).length : ℚ) = (xs.length : ℚ) + 1 := by
      push_cast [List.length_cons]; ring
    refine ⟨by rw [h2, hlen]; ring, by simpa [emit] using hpc,
      by simpa [emit] using hcur,
      ROp.mk k st.pageCount y0 :: new', ?_, ?_, ?_⟩
    · rw [hops]; simp [emit]
    · intro op hop
      rcases List.mem_cons.1 hop with h | h
      · subst h
        have h1 : (0 : ℚ) ≤ d * (xs.length : ℚ) := by positivity
        exact ⟨rfl, by rw [hlen]; linarith, le_refl _⟩
      · obtain ⟨ha, hb, hc⟩ := hbound op h
        exact ⟨ha, by rw [hlen]; linarith, by linarith⟩
    · intro _
      rcases eq_or_ne xs [] with hxs | hxs
      · subst hxs
        have : y0 - d * ((1 : Nat) : ℚ) + d = y0 := by push_cast; ring
        simp only [List.length_cons, List.length_nil]
        rw [show ((0 : Nat) + 1 : Nat) = (1 : Nat) from rfl, this]
        exact List.mem_cons_self _ _
      · have := hmem hxs
        have hv : y0 - d - d * (xs.length : ℚ) + d
            = y0 - d * ((x :: xs).length : ℚ) + d := by rw [hlen]; ring
        rw [hv] at this
        simp only [emit] at this
        exact List.mem_cons_of_mem _ this

/-- The safety package of a drawing routine: the page count never decreases,
a cursor at or below the top reset stays there, and every newly drawn text
block other than anchor-card name lines sits at or above the bottom margin. -/
structure SectOK (f : RState → RState) : Prop where
  mono : ∀ st, st.pageCount ≤ (f st).pageCount
  cursor : ∀ st, st.cursorY ≤ topReset → (f st).cursorY ≤ topReset
  opsE : ∀ st, ∃ new, (f st).ops = st.ops ++ new
      ∧ ∀ op ∈ new, op.kind ≠ OpKind.anchorName → bottomMargin ≤ op.y

lemma sectOK_congr {f g : RState → RState} (h : ∀ st, f st = g st)
    (hf : SectOK f) : SectOK g := by
  refine ⟨fun st => ?_, fun st hc => ?_, fun st => ?_⟩
  · rw [← h st]; exact hf.mono st
  · rw [← h st]; exact hf.cursor st hc
  · rw [← h st]; exact hf.opsE st

lemma sectOK_id : SectOK fun st => st :=
  ⟨fun _ => le_refl _, fun _ h => h, fun st => ⟨[], by simp, by simp⟩⟩

lemma sectOK_comp {f g : RState → RState} (hf : SectOK f) (hg : SectOK g) :
    SectOK fun st => g (f st) := by
  refine ⟨fun st => le_trans (hf.mono st) (hg.mono (f st)),
    fun st hc => hg.cursor (f st) (hf.cursor st hc), fun st => ?_⟩
  obtain ⟨n1, e1, b1⟩ := hf.opsE st
  obtain ⟨n2, e2, b2⟩ := hg.opsE (f st)
  refine ⟨n1 ++ n2, by rw [e2, e1, List.append_assoc], ?_⟩
  intro op hop hk
  rcases List.mem_append.1 hop with h | h
  · exact b1 op h hk
  · exact b2 op h hk

lemma sectOK_ite {f g : RState → RState} (c : Prop) [Decidable c]
    (hf : SectOK f) (hg : SectOK g) :
    SectOK fun st => if c then f st else g st := by
  by_cases hc : c
  · exact sectOK_congr (fun st => by rw [if_pos hc]) hf
  · exact sectOK_congr (fun st => by rw [if_neg hc]) hg

lemma sectOK_foldl {β : Type} (f : RState → β → RState) :
    ∀ (l : List β), (∀ b ∈ l, SectOK fun st => f st b) →
      SectOK fun st => l.foldl f st := by
  intro l
  induction l with
  | nil => intro _; exact sectOK_congr (fun st => by simp) sectOK_id
  | cons x xs ih =>
    intro h
    have hx := h x (List.mem_cons_self _ _)
    have hxs := ih fun b hb => h b (List.mem_cons_of_mem _ hb)
    exact sectOK_congr (fun st => by rw [List.foldl_cons]) (sectOK_comp hx hxs)

lemma sectOK_decY (d : ℚ) (hd : 0 ≤ d) : SectOK (decY d) := by
  refine ⟨fun st => le_refl _, fun st hc => ?_, fun st => ⟨[], by simp [decY], by simp⟩⟩
  simp only [decY]
  linarith

lemma sectOK_ensureSpace (n : ℚ) : SectOK (ensureSpace n) :=
  ⟨ensureSpace_pc n, ensureSpace_cursor_le n,
    fun st => ⟨[], by rw [ensureSpace_ops]; simp, by simp⟩⟩

lemma sectOK_drawLineStep (k : OpKind) (n d : ℚ) (h0 : 0 ≤ n)
    (hb : n ≤ topReset - bottomMargin) (hd : 0 ≤ d) :
    SectOK (drawLineStep k n d) := by
  refine ⟨fun st => ?_, fun st hc => ?_, fun st => ?_⟩
  · simpa [drawLineStep, decY, emit] using ensureSpace_pc n st
  · have := ensureSpace_cursor_le n st hc
    simp only [drawLineStep, decY, emit]
    linarith
  · refine ⟨[⟨k, (ensureSpace n st).pageCount, (ensureSpace n st).cursorY⟩],
      by simp [drawLineStep, decY, emit, ensureSpace_ops], ?_⟩
    intro op hop _
    rcases List.mem_singleton.1 hop with rfl
    have := ensureSpace_cursor_ge n st h0 hb
    simp only
    linarith

lemma drawChecklistItem_spec (W : String → ℚ → ℚ) (item : String) (st st1 : RState)
    (L : ℕ) (hL : L = (wrapText W item 10 (contentMaxWidth - 16)).length)
    (hst1 : st1 = ensureSpace (16 * (L : ℚ) + 14) st) :
    (drawChecklistItem W st item).pageCount = st1.pageCount
    ∧ (drawChecklistItem W st item).cursorY = st1.cursorY - 14 * (L : ℚ) - 12
    ∧ ∃ new, (drawChecklistItem W st item).ops = st1.ops ++ new
        ∧ ∀ op ∈ new, st1.cursorY - 14 * (L : ℚ) + 14 ≤ op.y ∧ op.y ≤ st1.cursorY := by
  obtain ⟨h2, hpc, hcur, new, hops, hbound, _⟩ :=
    emitFold_spec .checklist 14 (by norm_num)
      (wrapText W item 10 (contentMaxWidth - 16)) st1 st1.cursorY _ rfl
  rw [← hL] at h2 hbound
  refine ⟨?_, ?_, new, ?_, ?_⟩
  · simp only [drawChecklistItem, ← hL, ← hst1]
    exact hpc
  · simp only [drawChecklistItem, ← hL, ← hst1, h2]
    try ring
  · simp only [drawChecklistItem, ← hL, ← hst1]
    exact hops
  · intro op hop
    exact ⟨(hbound op hop).2.1, (hbound op hop).2.2⟩

lemma drawChecklistItem_pc_mono (W : String → ℚ → ℚ) (item : String) (st : RState) :
    st.pageCount ≤ (drawChecklistItem W st item).pageCount := by
  obtain ⟨hpc, _, _⟩ := drawChecklistItem_spec W item st _ _ rfl rfl
  rw [hpc]
  exact ensureSpace_pc _ st

lemma drawChecklistItem_cursor_le (W : String → ℚ → ℚ) (item : String) (st : RState)
    (hc : st.cursorY ≤ topReset) :
    (drawChecklistItem W st item).cursorY ≤ topReset := by
  obtain ⟨_, hcur, _⟩ := drawChecklistItem_spec W item st _ _ rfl rfl
  have h1 := ensureSpace_cursor_le (16 * ((wrapText W item 10 (contentMaxWidth - 16)).length : ℚ) + 14) st hc
  have h2 : (0 : ℚ) ≤ 14 * ((wrapText W item 10 (contentMaxWidth - 16)).length : ℚ) := by
    positivity
  rw [hcur]
  linarith

lemma drawChecklistItem_nofire (W : String → ℚ → ℚ) (item : String) (st : RState)
    (h : (drawChecklistItem W st item).pageCount = st.pageCount) :
    bottomMargin + 16 * ((wrapText W item 10 (contentMaxWidth - 16)).length : ℚ) + 14
        ≤ st.cursorY
    ∧ (drawChecklistItem W st item).cursorY
        = st.cursorY - 14 * ((wrapText W item 10 (contentMaxWidth - 16)).length : ℚ) - 12 := by
  obtain ⟨hpc, hcur, _⟩ := drawChecklistItem_spec W item st _ _ rfl rfl
  rw [hpc] at h
  obtain ⟨heq, hge⟩ := ensureSpace_nofire _ st h
  rw [heq] at hcur
  exact ⟨by linarith, hcur⟩

lemma sectOK_drawChecklistItem (W : String → ℚ → ℚ) (item : String)
    (h43 : (wrapText W item 10 (contentMaxWidth - 16)).length ≤ 43) :
    SectOK fun st => drawChecklistItem W st item := by
  refine ⟨drawChecklistItem_pc_mono W item, drawChecklistItem_cursor_le W item,
    fun st => ?_⟩
  obtain ⟨_, _, new, hops, hbound⟩ := drawChecklistItem_spec W item st _ _ rfl rfl
  set L := (wrapText W item 10 (contentMaxWidth - 16)).length with hLdef
  have hLq : (L : ℚ) ≤ 43 := by exact_mod_cast h43
  have hL0 : (0 : ℚ) ≤ (L : ℚ) := by positivity
  refine ⟨new, by rw [hops, ensureSpace_ops], ?_⟩
  intro op hop _
  have hb := (hbound op hop).1
  rcases ensureSpace_cases (16 * (L : ℚ) + 14) st with ⟨he, hc⟩ | ⟨he, _⟩
  · rw [he] at hb
    simp only [bottomMargin] at hc ⊢
    linarith
  · rw [he] at hb
    simp only [topReset, pageH, bottomMargin] at hb ⊢
    norm_num at hb ⊢
    linarith


lemma checklist_foldl_pc_mono (W : String → ℚ → ℚ) :
    ∀ (items : List String) (st : RState),
      st.pageCount ≤ (items.foldl (drawChecklistItem W) st).pageCount := by
  intro items
  induction items with
  | nil => intro st; simp
  | cons x xs ih =>
    intro st
    rw [List.foldl_cons]
    exact le_trans (drawChecklistItem_pc_mono W x st) (ih _)

/-- If folding the checklist items never opened a page, the cursor dropped by
at least 26 points per item. -/
lemma checklist_fold_drop (W : String → ℚ → ℚ) :
    ∀ (items : List String) (st : RState),
      (∀ item ∈ items, wrapText W item 10 (contentMaxWidth - 16) ≠ []) →
      (items.foldl (drawChecklistItem W) st).pageCount = st.pageCount →
      (items.foldl (drawChecklistItem W) st).cursorY + 26 * (items.length : ℚ)
        ≤ st.cursorY := by
  intro items
  induction items with
  | nil => intro st _ _; simp
  | cons x xs ih =>
    intro st hw hpc
    rw [List.foldl_cons] at hpc ⊢
    have h1 := drawChecklistItem_pc_mono W x st
    have h2 := checklist_foldl_pc_mono W xs (drawChecklistItem W st x)
    have hpc1 : (drawChecklistItem W st x).pageCount = st.pageCount :=
      le_antisymm (hpc ▸ h2) h1
    obtain ⟨_, hcur⟩ := drawChecklistItem_nofire W x st hpc1
    have hL1 : 1 ≤ ((wrapText W x 10 (contentMaxWidth - 16)).length : ℚ) := by
      have := hw x (List.mem_cons_self _ _)
      have hpos : 0 < (wrapText W x 10 (contentMaxWidth - 16)).length :=
        List.length_pos.2 this
      exact_mod_cast hpos
    have hIH := ih (drawChecklistItem W st x)
      (fun i hi => hw i (List.mem_cons_of_mem _ hi)) (by rw [hpc, hpc1])
    have hlen : ((x :: xs).length : ℚ) = (xs.length : ℚ) + 1 := by
      push_cast [List.length_cons]; ring
    rw [hlen]
    linarith

/-- If a nonempty checklist fold never opened a page, it ends above y = 72. -/
lemma checklist_fold_last (W : String → ℚ → ℚ) :
    ∀ (items : List String) (st : RState), items ≠ [] →
      (∀ item ∈ items, wrapText W item 10 (contentMaxWidth - 16) ≠ []) →
      (items.foldl (drawChecklistItem W) st).pageCount = st.pageCount →
      72 ≤ (items.foldl (drawChecklistItem W) st).cursorY := by
  intro items
  induction items with
  | nil => intro st hne; exact absurd rfl hne
  | cons x xs ih =>
    intro st _ hw hpc
    rw [List.foldl_cons] at hpc ⊢
    have h1 := drawChecklistItem_pc_mono W x st
    have h2 := checklist_foldl_pc_mono W xs (drawChecklistItem W st x)
    have hpc1 : (drawChecklistItem W st x).pageCount = st.pageCount :=
      le_antisymm (hpc ▸ h2) h1
    obtain ⟨hge, hcur⟩ := drawChecklistItem_nofire W x st hpc1
    have hL1 : 1 ≤ ((wrapText W x 10 (contentMaxWidth - 16)).length : ℚ) := by
      have := hw x (List.mem_cons_self _ _)
      have hpos : 0 < (wrapText W x 10 (contentMaxWidth - 16)).length :=
        List.length_pos.2 this
      exact_mod_cast hpos
    rcases eq_or_ne xs [] with hxs | hxs
    · subst hxs
      simp only [List.foldl_nil] at hpc ⊢
      rw [hcur]
      simp only [bottomMargin] at hge
      linarith
    · exact ih (drawChecklistItem W st x) hxs
        (fun i hi => hw i (List.mem_cons_of_mem _ hi)) (by rw [hpc, hpc1])

/-- A concrete-actions list of at least 40 drawable items cannot fit the
remaining space of any page, so the section opens at least one new page. -/
lemma drawActions_adds_page (W : String → ℚ → ℚ) (actions : List String)
    (st : RState)
    (hcount : 40 ≤ (safeStringArray actions).length)
    (hw : ∀ item ∈ safeStringArray actions,
        wrapText W item 10 (contentMaxWidth - 16) ≠ [])
    (hcur : st.cursorY ≤ topReset) :
    st.pageCount + 1 ≤ (drawActions W actions st).pageCount := by
  have hne : safeStringArray actions ≠ [] := by
    intro h
    rw [h] at hcount
    simp at hcount
  unfold drawActions
  rw [if_neg hne]
  set st1 := drawSectionTitle st with hst1
  have hT := sectOK_congr
    (fun s => show drawLineStep .sectionTitle 36 22 (decY 20 s) = drawSectionTitle s from rfl)
    (sectOK_comp (sectOK_decY 20 (by norm_num))
      (sectOK_drawLineStep .sectionTitle 36 22 (by norm_num)
        (by simp only [topReset, pageH, bottomMargin]; norm_num) (by norm_num)))
  have hmono1 : st.pageCount ≤ st1.pageCount := hT.mono st
  have hcur1 : st1.cursorY ≤ topReset := hT.cursor st hcur
  have hmono2 := checklist_foldl_pc_mono W (safeStringArray actions) st1
  by_contra hlt
  push_neg at hlt
  have heq : ((safeStringArray actions).foldl (drawChecklistItem W) st1).pageCount
      = st1.pageCount :=
    le_antisymm (le_trans (Nat.lt_succ_iff.mp hlt) hmono1) hmono2
  have hdrop := checklist_fold_drop W (safeStringArray actions) st1 hw heq
  have hlast := checklist_fold_last W (safeStringArray actions) st1 hne hw heq
  have hlen : (40 : ℚ) ≤ ((safeStringArray actions).length : ℚ) := by
    exact_mod_cast hcount
  simp only [topReset, pageH] at hcur1
  norm_num at hcur1
  linarith

lemma sectOK_drawSectionTitle : SectOK drawSectionTitle :=
  sectOK_congr
    (fun s => show drawLineStep .sectionTitle 36 22 (decY 20 s) = drawSectionTitle s from rfl)
    (sectOK_comp (sectOK_decY 20 (by norm_num))
      (sectOK_drawLineStep .sectionTitle 36 22 (by norm_num)
        (by simp only [topReset, pageH, bottomMargin]; norm_num) (by norm_num)))

lemma sectOK_drawParagraph (W : String → ℚ → ℚ) (text : String) :
    SectOK (drawParagraph W text) := by
  refine sectOK_congr (f := fun st => if text = "" then st
    else decY 8 ((wrapText W text 10 contentMaxWidth).foldl
      (fun st _ => drawLineStep .paragraph 15 14 st) st))
    (fun st => rfl) ?_
  refine sectOK_ite _ sectOK_id (sectOK_comp ?_ (sectOK_decY 8 (by norm_num)))
  exact sectOK_foldl _ _ fun b _ =>
    sectOK_drawLineStep .paragraph 15 14 (by norm_num)
      (by simp only [topReset, pageH, bottomMargin]; norm_num) (by norm_num)

lemma sectOK_drawBullets (W : String → ℚ → ℚ) (items : List String) :
    SectOK (drawBullets W items) := by
  refine sectOK_congr (f := fun st => if items = [] then st
    else decY 6 (items.foldl
      (fun st item => decY 10 ((wrapText W item 10 (contentMaxWidth - 14)).foldl
        (fun st _ => drawLineStep .bullet 15 14 st) st)) st))
    (fun st => rfl) ?_
  refine sectOK_ite _ sectOK_id (sectOK_comp ?_ (sectOK_decY 6 (by norm_num)))
  refine sectOK_foldl _ _ fun b _ => sectOK_comp ?_ (sectOK_decY 10 (by norm_num))
  exact sectOK_foldl _ _ fun c _ =>
    sectOK_drawLineStep .bullet 15 14 (by norm_num)
      (by simp only [topReset, pageH, bottomMargin]; norm_num) (by norm_num)

lemma sectOK_drawMeta (W : String → ℚ → ℚ) (mp : List String) :
    SectOK (drawMeta W mp) := by
  refine sectOK_congr (f := fun st => if mp = [] then st
    else decY 8 ((wrapText W (String.intercalate " | " mp) 10 contentMaxWidth).foldl
      (fun st _ => drawLineStep .meta 14 12 st) st))
    (fun st => rfl) ?_
  refine sectOK_ite _ sectOK_id (sectOK_comp ?_ (sectOK_decY 8 (by norm_num)))
  exact sectOK_foldl _ _ fun b _ =>
    sectOK_drawLineStep .meta 14 12 (by norm_num)
      (by simp only [topReset, pageH, bottomMargin]; norm_num) (by norm_num)

lemma sectOK_barStep :
    SectOK fun st => decY 28 (emit .barLabel ((ensureSpace 30 st).cursorY - 8 + 10)
      (ensureSpace 30 st)) := by
  refine ⟨fun st => ?_, fun st hc => ?_, fun st => ?_⟩
  · simpa [decY, emit] using ensureSpace_pc 30 st
  · have := ensureSpace_cursor_le 30 st hc
    simp only [decY, emit]
    linarith
  · refine ⟨[⟨.barLabel, (ensureSpace 30 st).pageCount, (ensureSpace 30 st).cursorY - 8 + 10⟩],
      by simp [decY, emit, ensureSpace_ops], ?_⟩
    intro op hop _
    rcases List.mem_singleton.1 hop with rfl
    have := ensureSpace_cursor_ge 30 st (by norm_num)
      (by simp only [topReset, pageH, bottomMargin]; norm_num)
    simp only
    linarith

lemma sectOK_drawTrajectory (W : String → ℚ → ℚ) (t : String) :
    SectOK (drawTrajectory W t) := by
  refine sectOK_congr (f := fun st =>
    if safeSectionText t = "" then drawSectionTitle st
    else decY 6 (drawParagraph W (safeSectionText t)
      (decY 28 (emit .barLabel ((ensureSpace 30 (drawSectionTitle st)).cursorY - 8 + 10)
        (ensureSpace 30 (drawSectionTitle st))))))
    (fun st => by simp only [drawTrajectory]) ?_
  have hpd : SectOK fun s => decY 6 (drawParagraph W (safeSectionText t) s) :=
    sectOK_comp (sectOK_drawParagraph W _) (sectOK_decY 6 (by norm_num))
  have hbar := sectOK_barStep
  have hinner := sectOK_comp hbar hpd
  have hcomp := sectOK_comp sectOK_drawSectionTitle hinner
  exact sectOK_ite _ sectOK_drawSectionTitle hcomp

lemma sectOK_drawSkills (W : String → ℚ → ℚ) (sg : SkillGapsR) :
    SectOK (drawSkills W sg) := by
  refine sectOK_congr (f := fun st =>
    if (safeSkillGaps sg).missingTechnical = [] ∧ (safeSkillGaps sg).missingSoft = []
    then st
    else
      (fun s2 =>
        if (safeSkillGaps sg).missingSoft ≠ [] then
          drawBullets W (safeSkillGaps sg).missingSoft
            (decY 4 (drawParagraph W "Soft skills:" s2))
        else s2)
      ((fun s1 =>
        if (safeSkillGaps sg).missingTechnical ≠ [] then
          decY 6 (drawBullets W ((safeSkillGaps sg).missingTechnical.map fun t =>
            match t.resourceUrl with
            | some u => t.name ++ " — " ++ u
            | none => t.name)
            (decY 4 (drawParagraph W "Technical skills (with suggested resources):" s1)))
        else s1)
      (drawSectionTitle st)))
    (fun st => by simp only [drawSkills]) ?_
  have h1 := sectOK_comp (sectOK_drawParagraph W "Technical skills (with suggested resources):")
    (sectOK_decY 4 (by norm_num))
  have h2 := sectOK_comp
    (sectOK_drawBullets W ((safeSkillGaps sg).missingTechnical.map fun t =>
      match t.resourceUrl with
      | some u => t.name ++ " — " ++ u
      | none => t.name))
    (sectOK_decY 6 (by norm_num))
  have htechInner := sectOK_comp h1 h2
  have htech := sectOK_ite ((safeSkillGaps sg).missingTechnical ≠ []) htechInner sectOK_id
  have h3 := sectOK_comp (sectOK_drawParagraph W "Soft skills:")
    (sectOK_decY 4 (by norm_num))
  have hsoftInner := sectOK_comp h3 (sectOK_drawBullets W (safeSkillGaps sg).missingSoft)
  have hsoft := sectOK_ite ((safeSkillGaps sg).missingSoft ≠ []) hsoftInner sectOK_id
  have hmain := sectOK_comp (sectOK_comp sectOK_drawSectionTitle htech) hsoft
  exact sectOK_ite _ sectOK_id hmain

lemma sectOK_drawActions (W : String → ℚ → ℚ) (actions : List String)
    (h43 : ∀ item ∈ safeStringArray actions,
        (wrapText W item 10 (contentMaxWidth - 16)).length ≤ 43) :
    SectOK (drawActions W actions) := by
  refine sectOK_congr (f := fun st => if safeStringArray actions = [] then st
    else (safeStringArray actions).foldl (drawChecklistItem W) (drawSectionTitle st))
    (fun st => rfl) ?_
  have hfold : SectOK fun st => (safeStringArray actions).foldl (drawChecklistItem W) st :=
    sectOK_foldl _ _ fun item hi => sectOK_drawChecklistItem W item (h43 item hi)
  exact sectOK_ite _ sectOK_id (sectOK_comp sectOK_drawSectionTitle hfold)

/-- One anchor card: page count never decreases, a freshly started row top is
at least 210 points up (the 140-point row check), the cursor stays at or
below the top reset, and all non-name ops (the percentage labels) stay above
the bottom margin. -/
lemma drawAnchorCard_spec (W : String → ℚ → ℚ) (a : ParsedCareerAnchor)
    (st : RState) (col : Nat) (rowTop : ℚ) (hrow : col ≠ 0 → 210 ≤ rowTop) :
    st.pageCount ≤ (drawAnchorCard W (st, col, rowTop) a).1.pageCount
    ∧ ((drawAnchorCard W (st, col, rowTop) a).2.1 ≠ 0 →
        210 ≤ (drawAnchorCard W (st, col, rowTop) a).2.2)
    ∧ (st.cursorY ≤ topReset → (col ≠ 0 → rowTop ≤ topReset) →
        (drawAnchorCard W (st, col, rowTop) a).1.cursorY ≤ topReset
        ∧ ((drawAnchorCard W (st, col, rowTop) a).2.1 ≠ 0 →
            (drawAnchorCard W (st, col, rowTop) a).2.2 ≤ topReset))
    ∧ ∃ new, (drawAnchorCard W (st, col, rowTop) a).1.ops = st.ops ++ new
        ∧ ∀ op ∈ new, op.kind ≠ OpKind.anchorName → bottomMargin ≤ op.y := by
  by_cases hcol : col = 0
  · subst hcol
    have hE210 : (210 : ℚ) ≤ (ensureSpace (120 + 20) st).cursorY := by
      have := ensureSpace_cursor_ge (120 + 20) st (by norm_num)
        (by simp only [topReset, pageH, bottomMargin]; norm_num)
      simp only [bottomMargin] at this
      linarith
    have hEq : drawAnchorCard W (st, 0, rowTop) a =
        (((wrapText W a.name 9 (cardWidth - 24)).foldl
            (fun (p : RState × ℚ) _ => (emit .anchorName p.2 p.1, p.2 - 11))
            (emit .anchorPct ((ensureSpace (120 + 20) st).cursorY - 32)
              (ensureSpace (120 + 20) st),
             (ensureSpace (120 + 20) st).cursorY - 66)).1,
         1, (ensureSpace (120 + 20) st).cursorY) := rfl
    obtain ⟨h2, hpc, hcur, new', hops, hbound, _⟩ :=
      emitFold_spec .anchorName 11 (by norm_num) (wrapText W a.name 9 (cardWidth - 24))
        (emit .anchorPct ((ensureSpace (120 + 20) st).cursorY - 32)
          (ensureSpace (120 + 20) st))
        ((ensureSpace (120 + 20) st).cursorY - 66) _ rfl
    rw [hEq]
    refine ⟨?_, fun _ => hE210, fun h1 _ => ?_, ?_⟩
    · exact le_trans (ensureSpace_pc (120 + 20) st) (le_of_eq hpc.symm)
    · have hle := ensureSpace_cursor_le (120 + 20) st h1
      exact ⟨le_trans (le_of_eq hcur) hle, fun _ => hle⟩
    · refine ⟨ROp.mk .anchorPct (ensureSpace (120 + 20) st).pageCount
        ((ensureSpace (120 + 20) st).cursorY - 32) :: new', ?_, ?_⟩
      · rw [hops]
        simp [emit, ensureSpace_ops]
      · intro op hop hk
        rcases List.mem_cons.1 hop with h | h
        · subst h
          simp only [bottomMargin]
          linarith
        · exact absurd (hbound op h).1 hk
  · have h210 := hrow hcol
    obtain ⟨h2, hpc, hcur, new', hops, hbound, _⟩ :=
      emitFold_spec .anchorName 11 (by norm_num) (wrapText W a.name 9 (cardWidth - 24))
        (emit .anchorPct (rowTop - 32) st) (rowTop - 66) _ rfl
    have hEq : drawAnchorCard W (st, col, rowTop) a =
        (if col + 1 ≥ 3 then
          ({ ((wrapText W a.name 9 (cardWidth - 24)).foldl
              (fun (p : RState × ℚ) _ => (emit .anchorName p.2 p.1, p.2 - 11))
              (emit .anchorPct (rowTop - 32) st, rowTop - 66)).1 with
             cursorY := rowTop - 120 - 24 }, 0, rowTop)
         else
          (((wrapText W a.name 9 (cardWidth - 24)).foldl
              (fun (p : RState × ℚ) _ => (emit .anchorName p.2 p.1, p.2 - 11))
              (emit .anchorPct (rowTop - 32) st, rowTop - 66)).1,
           col + 1, rowTop)) := by
      simp only [drawAnchorCard, if_neg hcol]
    have hopsAll : ∃ new,
        (((wrapText W a.name 9 (cardWidth - 24)).foldl
            (fun (p : RState × ℚ) _ => (emit .anchorName p.2 p.1, p.2 - 11))
            (emit .anchorPct (rowTop - 32) st, rowTop - 66)).1).ops
          = st.ops ++ new
        ∧ ∀ op ∈ new, op.kind ≠ OpKind.anchorName → bottomMargin ≤ op.y := by
      refine ⟨ROp.mk .anchorPct st.pageCount (rowTop - 32) :: new', ?_, ?_⟩
      · rw [hops]
        simp [emit]
      · intro op hop hk
        rcases List.mem_cons.1 hop with h | h
        · subst h
          simp only [bottomMargin]
          linarith
        · exact absurd (hbound op h).1 hk
    rw [hEq]
    by_cases h3 : col + 1 ≥ 3
    · rw [if_pos h3]
      refine ⟨?_, by simp, fun h1 h2 => ⟨?_, by simp⟩, hopsAll⟩
      · exact le_of_eq hpc.symm
      · have := h2 hcol
        simp only
        linarith
    · rw [if_neg h3]
      refine ⟨?_, fun _ => h210, fun h1 h2 => ?_, hopsAll⟩
      · exact le_of_eq hpc.symm
      · exact ⟨le_trans (le_of_eq hcur) h1, fun _ => h2 hcol⟩

/-- The anchors card loop preserves the card-spec invariants. -/
lemma anchors_foldl_spec (W : String → ℚ → ℚ) :
    ∀ (l : List ParsedCareerAnchor) (st : RState) (col : Nat) (rowTop : ℚ),
      (col ≠ 0 → 210 ≤ rowTop) →
      st.pageCount ≤ (l.foldl (drawAnchorCard W) (st, col, rowTop)).1.pageCount
      ∧ ((l.foldl (drawAnchorCard W) (st, col, rowTop)).2.1 ≠ 0 →
          210 ≤ (l.foldl (drawAnchorCard W) (st, col, rowTop)).2.2)
      ∧ (st.cursorY ≤ topReset → (col ≠ 0 → rowTop ≤ topReset) →
          (l.foldl (drawAnchorCard W) (st, col, rowTop)).1.cursorY ≤ topReset
          ∧ ((l.foldl (drawAnchorCard W) (st, col, rowTop)).2.1 ≠ 0 →
              (l.foldl (drawAnchorCard W) (st, col, rowTop)).2.2 ≤ topReset))
      ∧ ∃ new, (l.foldl (drawAnchorCard W) (st, col, rowTop)).1.ops = st.ops ++ new
          ∧ ∀ op ∈ new, op.kind ≠ OpKind.anchorName → bottomMargin ≤ op.y := by
  intro l
  induction l with
  | nil =>
    intro st col rowTop h
    exact ⟨le_refl _, h, fun h1 h2 => ⟨h1, h2⟩, [], by simp, by simp⟩
  | cons a l ih =>
    intro st col rowTop h
    rw [List.foldl_cons]
    obtain ⟨c1, c2, c3, cnew, cops, cbound⟩ := drawAnchorCard_spec W a st col rowTop h
    have hq : ((drawAnchorCard W (st, col, rowTop) a).1,
        (drawAnchorCard W (st, col, rowTop) a).2.1,
        (drawAnchorCard W (st, col, rowTop) a).2.2)
        = drawAnchorCard W (st, col, rowTop) a := by simp
    obtain ⟨i1, i2, i3, inew, iops, ibound⟩ :=
      ih (drawAnchorCard W (st, col, rowTop) a).1
        (drawAnchorCard W (st, col, rowTop) a).2.1
        (drawAnchorCard W (st, col, rowTop) a).2.2 c2
    rw [hq] at i1 i2 i3 iops
    refine ⟨le_trans c1 i1, i2, fun h1 h2 => ?_, cnew ++ inew, ?_, ?_⟩
    · obtain ⟨d1, d2⟩ := c3 h1 h2
      exact i3 d1 d2
    · rw [iops, cops, List.append_assoc]
    · intro op hop hk
      rcases List.mem_append.1 hop with hm | hm
      · exact cbound op hm hk
      · exact ibound op hm hk

lemma sectOK_drawAnchors (W : String → ℚ → ℚ) (anchorsList : List String) :
    SectOK (drawAnchors W anchorsList) := by
  by_cases hnil : anchorsList = []
  · subst hnil
    exact sectOK_congr (f := fun st => st) (fun st => rfl) sectOK_id
  · have hT := sectOK_drawSectionTitle
    have hEq : ∀ st, drawAnchors W anchorsList st =
        decY 8 (if ((parseCareerAnchors anchorsList).foldl (drawAnchorCard W)
              (drawSectionTitle st, 0, (drawSectionTitle st).cursorY)).2.1 ≠ 0 then
            { ((parseCareerAnchors anchorsList).foldl (drawAnchorCard W)
                (drawSectionTitle st, 0, (drawSectionTitle st).cursorY)).1 with
              cursorY := ((parseCareerAnchors anchorsList).foldl (drawAnchorCard W)
                (drawSectionTitle st, 0, (drawSectionTitle st).cursorY)).2.2 - 120 - 24 }
          else ((parseCareerAnchors anchorsList).foldl (drawAnchorCard W)
                (drawSectionTitle st, 0, (drawSectionTitle st).cursorY)).1) := by
      intro st
      simp only [drawAnchors, if_neg hnil]
    refine ⟨fun st => ?_, fun st hc => ?_, fun st => ?_⟩
    · rw [hEq st]
      obtain ⟨i1, _, _, _⟩ := anchors_foldl_spec W (parseCareerAnchors anchorsList)
        (drawSectionTitle st) 0 (drawSectionTitle st).cursorY (by simp)
      by_cases hcolz : ((parseCareerAnchors anchorsList).foldl (drawAnchorCard W)
          (drawSectionTitle st, 0, (drawSectionTitle st).cursorY)).2.1 ≠ 0
      · rw [if_pos hcolz]
        exact le_trans (hT.mono st) i1
      · rw [if_neg hcolz]
        exact le_trans (hT.mono st) i1
    · rw [hEq st]
      obtain ⟨_, _, i3, _⟩ := anchors_foldl_spec W (parseCareerAnchors anchorsList)
        (drawSectionTitle st) 0 (drawSectionTitle st).cursorY (by simp)
      obtain ⟨d1, d2⟩ := i3 (hT.cursor st hc) (by simp)
      by_cases hcolz : ((parseCareerAnchors anchorsList).foldl (drawAnchorCard W)
          (drawSectionTitle st, 0, (drawSectionTitle st).cursorY)).2.1 ≠ 0
      · rw [if_pos hcolz]
        have := d2 hcolz
        simp only [decY]
        linarith
      · rw [if_neg hcolz]
        simp only [decY]
        linarith
    · rw [hEq st]
      obtain ⟨_, _, _, new2, iops, ibound⟩ := anchors_foldl_spec W
        (parseCareerAnchors anchorsList)
        (drawSectionTitle st) 0 (drawSectionTitle st).cursorY (by simp)
      obtain ⟨new1, tops, tbound⟩ := hT.opsE st
      refine ⟨new1 ++ new2, ?_, ?_⟩
      · by_cases hcolz : ((parseCareerAnchors anchorsList).foldl (drawAnchorCard W)
            (drawSectionTitle st, 0, (drawSectionTitle st).cursorY)).2.1 ≠ 0
        · rw [if_pos hcolz]
          simp only [decY]
          rw [iops, tops, List.append_assoc]
        · rw [if_neg hcolz]
          simp only [decY]
          rw [iops, tops, List.append_assoc]
      · intro op hop hk
        rcases List.mem_append.1 hop with hm | hm
        · exact tbound op hm hk
        · exact ibound op hm hk

lemma tentative_ne_empty (current w : String) (hcw : current ≠ "" ∨ w ≠ "") :
    (if current ≠ "" then current ++ " " ++ w else w) ≠ "" := by
  by_cases hc : current ≠ ""
  · rw [if_pos hc]
    intro he
    have h1 : (current ++ " " ++ w).length = current.length + (" " : String).length + w.length := by
      rw [String.length_append, String.length_append]
    have h2 : (current ++ " " ++ w).length = ("" : String).length := by rw [he]
    have h3 : ("" : String).length = 0 := rfl
    have h4 : (" " : String).length = 1 := rfl
    omega
  · rw [if_neg hc]
    rcases hcw with h | h
    · exact absurd h hc
    · exact h

/-- The wrap loop yields at least one line when fed a nonempty word. -/
lemma wrapLoop_ne_nil (W : String → ℚ → ℚ) (sz mW : ℚ) :
    ∀ (ws : List String) (current : String) (lines : List String),
      ((∃ w ∈ ws, w ≠ "") ∨ current ≠ "" ∨ lines ≠ []) →
      wrapLoop W sz mW ws current lines ≠ [] := by
  intro ws
  induction ws with
  | nil =>
    intro current lines h
    simp only [wrapLoop]
    rcases h with ⟨w, hw, _⟩ | h | h
    · exact absurd hw (List.not_mem_nil w)
    · rw [if_pos h]; simp
    · by_cases hc : current ≠ ""
      · rw [if_pos hc]; simp
      · rw [if_neg hc]; exact h
  | cons w ws ih =>
    intro current lines h
    simp only [wrapLoop]
    by_cases hW : W (if current ≠ "" then current ++ " " ++ w else w) sz ≤ mW
    · rw [if_pos hW]
      apply ih
      rcases h with ⟨w', hw', hne⟩ | h | h
      · rcases List.mem_cons.1 hw' with hww | hmem
        · subst hww
          exact Or.inr (Or.inl (tentative_ne_empty current w' (Or.inr hne)))
        · exact Or.inl ⟨w', hmem, hne⟩
      · exact Or.inr (Or.inl (tentative_ne_empty current w (Or.inl h)))
      · exact Or.inr (Or.inr h)
    · rw [if_neg hW]
      by_cases hc : current ≠ ""
      · rw [if_pos hc]
        apply ih
        exact Or.inr (Or.inr (by simp))
      · rw [if_neg hc]
        apply ih
        rcases h with ⟨w', hw', hne⟩ | h | h
        · rcases List.mem_cons.1 hw' with hww | hmem
          · subst hww
            exact Or.inr (Or.inl hne)
          · exact Or.inl ⟨w', hmem, hne⟩
        · exact absurd h hc
        · exact Or.inr (Or.inr h)

lemma wrapText_ne_nil (W : String → ℚ → ℚ) (t : String) (sz mW : ℚ)
    (h : ∃ w ∈ splitWsStr t, w ≠ "") : wrapText W t sz mW ≠ [] :=
  wrapLoop_ne_nil W sz mW (splitWsStr t) "" [] (Or.inl h)

/-- The layout state after the title, metadata, summary, trajectory, anchors
and skill-gap sections, before the concrete-actions checklist. -/
def renderPrefix (W : String → ℚ → ℚ) (g : GapReport)
    (targetRole targetCompany targetIndustry : Option String) : RState :=
  drawSkills W g.skillGaps (drawAnchors W (safeStringArray g.careerAnchors)
    (drawTrajectory W g.trajectoryFit (drawParagraph W (safeSectionText g.overallSummary)
      (drawSectionTitle (drawMeta W (metaParts targetRole targetCompany targetIndustry)
        ⟨1, pageH - 110, [⟨OpKind.title, 1, pageH - 80⟩]⟩)))))

lemma renderReport_split (W : String → ℚ → ℚ) (g : GapReport)
    (tr tc ti : Option String) :
    renderReport W g tr tc ti
      = drawActions W g.concreteActions (renderPrefix W g tr tc ti) := rfl

/-- Claim C8 (amended): the renderer keeps a running vertical cursor and the
`ensureSpace` page check; for any GapReport whose concreteActions hold at
least 40 drawable items (each wrapping to at least one and at most 43
lines), the renderer emits at least 2 pages, and no drawn text block other
than the anchor-card name lines crosses the 70-point bottom margin. -/
theorem c8_renderer (W : String → ℚ → ℚ) (g : GapReport) (tr tc ti : Option String)
    (hcount : 40 ≤ (safeStringArray g.concreteActions).length)
    (hword : ∀ item ∈ safeStringArray g.concreteActions, ∃ w ∈ splitWsStr item, w ≠ "")
    (h43 : ∀ item ∈ safeStringArray g.concreteActions,
        (wrapText W item 10 (contentMaxWidth - 16)).length ≤ 43) :
    2 ≤ (renderReport W g tr tc ti).pageCount
    ∧ ∀ op ∈ (renderReport W g tr tc ti).ops,
        op.kind ≠ OpKind.anchorName → bottomMargin ≤ op.y := by
  have s1 := sectOK_drawMeta W (metaParts tr tc ti)
  have s2 := sectOK_comp s1 sectOK_drawSectionTitle
  have s3 := sectOK_comp s2 (sectOK_drawParagraph W (safeSectionText g.overallSummary))
  have s4 := sectOK_comp s3 (sectOK_drawTrajectory W g.trajectoryFit)
  have s5 := sectOK_comp s4 (sectOK_drawAnchors W (safeStringArray g.careerAnchors))
  have s6 := sectOK_comp s5 (sectOK_drawSkills W g.skillGaps)
  have hw' : ∀ item ∈ safeStringArray g.concreteActions,
      wrapText W item 10 (contentMaxWidth - 16) ≠ [] :=
    fun item hi => wrapText_ne_nil W item 10 (contentMaxWidth - 16) (hword item hi)
  have sAct := sectOK_drawActions W g.concreteActions h43
  have hPpc : 1 ≤ (renderPrefix W g tr tc ti).pageCount :=
    s6.mono ⟨1, pageH - 110, [⟨OpKind.title, 1, pageH - 80⟩]⟩
  have hPcur : (renderPrefix W g tr tc ti).cursorY ≤ topReset :=
    s6.cursor ⟨1, pageH - 110, [⟨OpKind.title, 1, pageH - 80⟩]⟩
      (by show (pageH - 110 : ℚ) ≤ topReset; simp only [pageH, topReset]; norm_num)
  obtain ⟨newP, hPops0, hPbound⟩ :=
    s6.opsE ⟨1, pageH - 110, [⟨OpKind.title, 1, pageH - 80⟩]⟩
  have hPops : (renderPrefix W g tr tc ti).ops
      = [ROp.mk OpKind.title 1 (pageH - 80)] ++ newP := hPops0
  obtain ⟨newA, hAops, hAbound⟩ := sAct.opsE (renderPrefix W g tr tc ti)
  have hAct := drawActions_adds_page W g.concreteActions (renderPrefix W g tr tc ti)
    hcount hw' hPcur
  constructor
  · rw [renderReport_split]
    omega
  · intro op hop hk
    rw [renderReport_split] at hop
    rw [hAops, hPops] at hop
    rcases List.mem_append.1 hop with hm | hm
    · rcases List.mem_append.1 hm with hm1 | hm1
      · rcases List.mem_singleton.1 hm1 with rfl
        show bottomMargin ≤ pageH - 80
        simp only [bottomMargin, pageH]
        norm_num
      · exact hPbound op hm1 hk
    · exact hAbound op hm hk

/-- With a zero-width metric every word fits: at most one output line. -/
lemma wrapLoop_zero_len (sz mW : ℚ) (hm : 0 ≤ mW) :
    ∀ (ws : List String) (current : String) (lines : List String),
      (wrapLoop (fun _ _ => 0) sz mW ws current lines).length ≤ lines.length + 1 := by
  intro ws
  induction ws with
  | nil =>
    intro current lines
    simp only [wrapLoop]
    by_cases hc : current ≠ ""
    · rw [if_pos hc]; simp
    · rw [if_neg hc]; omega
  | cons w ws ih =>
    intro current lines
    simp only [wrapLoop]
    rw [if_pos hm]
    exact ih _ lines

lemma wrapText_zero_len (t : String) (sz mW : ℚ) (hm : 0 ≤ mW) :
    (wrapText (fun _ _ => 0) t sz mW).length ≤ 1 := by
  have := wrapLoop_zero_len sz mW hm (splitWsStr t) "" []
  simpa [wrapText] using this

/-- With an oversized constant metric every tentative line overflows, so the
wrap emits exactly the nonempty words, one per line. -/
lemma wrapLoop_wide (sz mW : ℚ) (hm : mW < 1000) :
    ∀ (ws : List String) (current : String) (lines : List String),
      wrapLoop (fun _ _ => 1000) sz mW ws current lines
        = lines ++ (if current ≠ "" then [current] else []) ++ ws.filter (· ≠ "") := by
  intro ws
  induction ws with
  | nil =>
    intro current lines
    simp only [wrapLoop, List.filter_nil]
    by_cases hc : current ≠ ""
    · rw [if_pos hc, if_pos hc]; simp
    · rw [if_neg hc, if_neg hc]; simp
  | cons w ws ih =>
    intro current lines
    simp only [wrapLoop]
    rw [if_neg (not_le.2 hm)]
    by_cases hc : current ≠ ""
    · rw [if_pos hc, ih w (lines ++ [current]), if_pos hc]
      by_cases hw : w = "" <;> simp [hw, List.filter_cons, List.append_assoc]
    · rw [if_neg hc, ih w lines, if_neg hc]
      by_cases hw : w = "" <;> simp [hw, List.filter_cons]

lemma wrapText_wide (t : String) (sz mW : ℚ) (hm : mW < 1000) :
    wrapText (fun _ _ => 1000) t sz mW = (splitWsStr t).filter (· ≠ "") := by
  have := wrapLoop_wide sz mW hm (splitWsStr t) "" []
  simpa [wrapText] using this

def c8DemoReport : GapReport where
  overallSummary := "ok"
  trajectoryFit := ""
  careerAnchors := []
  skillGaps := ⟨[], []⟩
  concreteActions := List.replicate 40 "Do the thing"

/-- A career anchor whose label is sixty words long: its card keeps the
fixed 120-point height while its name lines run far below it. -/
def cexAnchor : String := String.intercalate " " (List.replicate 60 "w")

def c8CexReport : GapReport where
  overallSummary := ""
  trajectoryFit := ""
  careerAnchors := [cexAnchor]
  skillGaps := ⟨[], []⟩
  concreteActions := List.replicate 40 "Do the thing"

lemma drawSkills_empty (W : String → ℚ → ℚ) (st : RState) :
    drawSkills W ⟨[], []⟩ st = st := by
  simp [drawSkills, safeSkillGaps, safeStringArray]

/-- The layout state after the title, metadata, summary and trajectory
sections, before the career-anchor cards. -/
def renderPrefix3 (W : String → ℚ → ℚ) (g : GapReport)
    (targetRole targetCompany targetIndustry : Option String) : RState :=
  drawTrajectory W g.trajectoryFit (drawParagraph W (safeSectionText g.overallSummary)
    (drawSectionTitle (drawMeta W (metaParts targetRole targetCompany targetIndustry)
      ⟨1, pageH - 110, [⟨OpKind.title, 1, pageH - 80⟩]⟩)))

lemma renderPrefix_eq_prefix3 (W : String → ℚ → ℚ) (g : GapReport)
    (tr tc ti : Option String) :
    renderPrefix W g tr tc ti
      = drawSkills W g.skillGaps (drawAnchors W (safeStringArray g.careerAnchors)
          (renderPrefix3 W g tr tc ti)) := rfl

set_option maxRecDepth 16384 in
/-- Rendering the sixty-word anchor with an oversized text metric puts an
anchor-name line below the bottom margin, whatever state the section starts
from (as long as the cursor is on the page). -/
lemma cex_anchors_overflow (st : RState) (hc : st.cursorY ≤ topReset) :
    ∃ op ∈ (drawAnchors (fun _ _ => 1000) [cexAnchor] st).ops,
      op.y < bottomMargin := by
  have hne : ([cexAnchor] : List String) ≠ [] := by simp
  have hpa : parseCareerAnchors [cexAnchor]
      = [ParsedCareerAnchor.mk cexAnchor 50 cexAnchor] := by decide
  obtain ⟨h2, hpc, hcur, new, hops, hbound, hmem⟩ :=
    emitFold_spec .anchorName 11 (by norm_num)
      (wrapText (fun _ _ => 1000) cexAnchor 9 (cardWidth - 24))
      (emit .anchorPct ((ensureSpace (120 + 20) (drawSectionTitle st)).cursorY - 32)
        (ensureSpace (120 + 20) (drawSectionTitle st)))
      ((ensureSpace (120 + 20) (drawSectionTitle st)).cursorY - 66) _ rfl
  have hlen : (wrapText (fun _ _ => 1000) cexAnchor 9 (cardWidth - 24)).length = 60 := by
    rw [wrapText_wide _ _ _ (by simp only [cardWidth, contentMaxWidth, pageW]; norm_num)]
    decide
  have hne2 : wrapText (fun _ _ => 1000) cexAnchor 9 (cardWidth - 24) ≠ [] := by
    intro h
    rw [h] at hlen
    simp at hlen
  have hbadmem := hmem hne2
  rw [hlen] at hbadmem
  have hcard : drawAnchorCard (fun _ _ => 1000)
      (drawSectionTitle st, 0, (drawSectionTitle st).cursorY)
      (ParsedCareerAnchor.mk cexAnchor 50 cexAnchor)
      = (((wrapText (fun _ _ => 1000) cexAnchor 9 (cardWidth - 24)).foldl
          (fun (p : RState × ℚ) _ => (emit .anchorName p.2 p.1, p.2 - 11))
          (emit .anchorPct ((ensureSpace (120 + 20) (drawSectionTitle st)).cursorY - 32)
            (ensureSpace (120 + 20) (drawSectionTitle st)),
           (ensureSpace (120 + 20) (drawSectionTitle st)).cursorY - 66)).1,
         1, (ensureSpace (120 + 20) (drawSectionTitle st)).cursorY) := rfl
  have hOps : (drawAnchors (fun _ _ => 1000) [cexAnchor] st).ops
      = (emit .anchorPct ((ensureSpace (120 + 20) (drawSectionTitle st)).cursorY - 32)
          (ensureSpace (120 + 20) (drawSectionTitle st))).ops ++ new := by
    simp only [drawAnchors, if_neg hne, hpa, List.foldl_cons, List.foldl_nil, hcard, decY]
    rw [if_pos (by decide : (1 : Nat) ≠ 0)]
    exact hops
  have hE : (ensureSpace (120 + 20) (drawSectionTitle st)).cursorY ≤ topReset :=
    ensureSpace_cursor_le _ _ (sectOK_drawSectionTitle.cursor st hc)
  refine ⟨_, by rw [hOps]; exact List.mem_append_right _ hbadmem, ?_⟩
  show (ensureSpace (120 + 20) (drawSectionTitle st)).cursorY - 66
      - 11 * ((60 : ℕ) : ℚ) + 11 < bottomMargin
  simp only [topReset, pageH] at hE
  simp only [bottomMargin]
  push_cast
  norm_num at hE ⊢
  linarith

set_option maxRecDepth 16384 in
/-- Claim C8 witness: a report with forty one-line actions, rendered with a
zero-width metric, reaches a second page. -/
theorem c8_renderer_witness :
    2 ≤ (renderReport (fun _ _ => 0) c8DemoReport none none none).pageCount :=
  (c8_renderer (fun _ _ => 0) c8DemoReport none none none
    (by decide)
    (by decide)
    (fun item _ =>
      le_trans (wrapText_zero_len item 10 (contentMaxWidth - 16)
        (by simp only [contentMaxWidth, pageW]; norm_num)) (by norm_num))).1

set_option maxRecDepth 16384 in
/-- Claim C8 counterexample: a report whose concreteActions would overflow
the page (forty items) but whose sixty-word career-anchor label makes the
renderer draw a text line below the 70-point bottom margin — the anchor
cards reserve a fixed 120-point height and draw their wrapped name lines
with no page check. -/
theorem c8_counterexample :
    40 ≤ (safeStringArray c8CexReport.concreteActions).length
    ∧ ∃ op ∈ (renderReport (fun _ _ => 1000) c8CexReport none none none).ops,
        op.y < bottomMargin := by
  constructor
  · decide
  · have s1 := sectOK_drawMeta (fun _ _ => (1000 : ℚ)) (metaParts none none none)
    have s2 := sectOK_comp s1 sectOK_drawSectionTitle
    have s3 := sectOK_comp s2
      (sectOK_drawParagraph (fun _ _ => (1000 : ℚ)) (safeSectionText c8CexReport.overallSummary))
    have s4 := sectOK_comp s3
      (sectOK_drawTrajectory (fun _ _ => (1000 : ℚ)) c8CexReport.trajectoryFit)
    have hcur : (renderPrefix3 (fun _ _ => 1000) c8CexReport none none none).cursorY
        ≤ topReset :=
      s4.cursor ⟨1, pageH - 110, [⟨OpKind.title, 1, pageH - 80⟩]⟩
        (by show (pageH - 110 : ℚ) ≤ topReset; simp only [pageH, topReset]; norm_num)
    obtain ⟨opb, hmemb, hyb⟩ :=
      cex_anchors_overflow (renderPrefix3 (fun _ _ => 1000) c8CexReport none none none) hcur
    have hset : ∀ item ∈ safeStringArray c8CexReport.concreteActions,
        item = "Do the thing" := by decide
    have h43cex : ∀ item ∈ safeStringArray c8CexReport.concreteActions,
        (wrapText (fun _ _ => 1000) item 10 (contentMaxWidth - 16)).length ≤ 43 := by
      intro item hi
      rw [hset item hi,
        wrapText_wide _ _ _ (by simp only [contentMaxWidth, pageW]; norm_num)]
      decide
    have hSA : safeStringArray c8CexReport.careerAnchors = [cexAnchor] := by decide
    have hsg : drawSkills (fun _ _ => 1000) c8CexReport.skillGaps
        (drawAnchors (fun _ _ => 1000) [cexAnchor]
          (renderPrefix3 (fun _ _ => 1000) c8CexReport none none none))
        = drawAnchors (fun _ _ => 1000) [cexAnchor]
          (renderPrefix3 (fun _ _ => 1000) c8CexReport none none none) :=
      drawSkills_empty _ _
    have hR : renderReport (fun _ _ => 1000) c8CexReport none none none
        = drawActions (fun _ _ => 1000) c8CexReport.concreteActions
            (drawAnchors (fun _ _ => 1000) [cexAnchor]
              (renderPrefix3 (fun _ _ => 1000) c8CexReport none none none)) := by
      rw [renderReport_split, renderPrefix_eq_prefix3, hSA, hsg]
    obtain ⟨newA, hAops, _⟩ :=
      (sectOK_drawActions (fun _ _ => (1000 : ℚ)) c8CexReport.concreteActions h43cex).opsE
        (drawAnchors (fun _ _ => 1000) [cexAnchor]
          (renderPrefix3 (fun _ _ => 1000) c8CexReport none none none))
    refine ⟨opb, ?_, hyb⟩
    rw [hR, hAops]
    exact List.mem_append_left _ hmemb
